import Mathlib

/-!
Verification of the scubywasm match runtime and supervisors.

A shallow embedding of the Python sources under `src/tools/src/scubywasm/`:
`agent.py` (trap-latching agent binding), `game.py` (`Game.__init__` and
`Game.tick`), `server.py` (`Logger`, `_run_game`, supervisor `main`) and
`service_runner.py` (scenario-file validation).  The engine and agent WASM
modules are external collaborators: they are modelled as explicit
deterministic interfaces (`EngineIface`, `GuestModule`) over an abstract
state type, with `none` standing for a guest trap or exception.  Python
floats are modelled as rationals, Python `None` as `Option.none`.
-/

namespace Scubywasm

/-- `common.py Config` — the five-field config record shared by engine and
agents. -/
structure Config where
  ship_max_turn_rate : ℚ
  ship_max_velocity : ℚ
  ship_hit_radius : ℚ
  shot_velocity : ℚ
  shot_lifetime : Int
deriving DecidableEq, Repr

/-- `common.py Pose` — `(x, y, heading)`. -/
structure Pose where
  x : ℚ
  y : ℚ
  heading : ℚ
deriving DecidableEq, Repr

/-- Python `round(q, d)` used for log compactness (`game.py` lines 142-150,
123).  The exact tie-breaking is irrelevant to every claim; we round to the
nearest multiple of `10^(-d)`. -/
def roundTo (d : Nat) (q : ℚ) : ℚ := (round (q * (10 : ℚ) ^ d) : ℚ) / (10 : ℚ) ^ d

/-- Python `action or 0` (`game.py` line 167): `None` and `0` are falsy and
yield `0`; any other integer is returned unchanged. -/
def pyOr (a : Option Int) : Int :=
  match a with
  | none => 0
  | some v => if v = 0 then 0 else v

/-- The agent WASM module's ABI (`agent.py` calls into `wasmmodule.py`),
as a deterministic transition system over an abstract guest state `γ`.
An outer `none` models a guest trap or any other exception raised by the
export call; `make_action`'s inner `Option Int` models the guest returning
`None` versus an integer action. -/
structure GuestModule (γ : Type) where
  init_agent : γ → Nat → Nat → Nat → Option (γ × Nat)
  set_config_parameter : γ → Nat → Nat → ℚ → Option γ
  clear_world_state : γ → Nat → Option γ
  update_ship : γ → Nat → Nat → Nat → ℚ → ℚ → ℚ → Option γ
  update_shot : γ → Nat → Nat → Int → ℚ → ℚ → ℚ → Option γ
  update_score : γ → Nat → Nat → Int → Option γ
  make_action : γ → Nat → Nat → Nat → Option (γ × Option Int)

/-- `agent.py Agent` — one agent binding: guest state, the context handle
returned by `init_agent`, the sticky `trapped` flag, whether the store was
built with fuel metering, and the store's current fuel amount. -/
structure AgentState (γ : Type) where
  module : γ
  ctx : Nat
  trapped : Bool
  fuelLimited : Bool
  fuel : Option Nat
deriving DecidableEq, Repr

namespace Agent

variable {γ : Type}

/-- The config-push loop of `Agent.__init__` (`agent.py` lines 45-54): the
five config fields are pushed positionally; the first exception stops the
loop and reports a trap (second component `true`). -/
def pushConfig (g : GuestModule γ) (ctx : Nat) : γ → List (Nat × ℚ) → γ × Bool
  | m, [] => (m, false)
  | m, (i, v) :: rest =>
    match g.set_config_parameter m ctx i v with
    | none => (m, true)
    | some m1 => pushConfig g ctx m1 rest

/-- The five `(index, value)` pairs pushed by `Agent.__init__` (`agent.py`
lines 45-54), in order; `shot_lifetime` travels through a float slot. -/
def cfgParams (engine_cfg : Config) : List (Nat × ℚ) :=
  [(0, engine_cfg.ship_max_turn_rate), (1, engine_cfg.ship_max_velocity),
   (2, engine_cfg.ship_hit_radius), (3, engine_cfg.shot_velocity),
   (4, (engine_cfg.shot_lifetime : ℚ))]

/-- `Agent.__init__` (`agent.py` lines 22-56) after the `WASMModule`
instantiation succeeded: set initial fuel, call `init_agent`, push the five
config parameters; any exception inside the `try` block latches `trapped`. -/
def init (g : GuestModule γ) (m : γ) (n_agents_total agent_multiplicity seed : Nat)
    (engine_cfg : Config) (init_fuel_level : Option Nat) : AgentState γ :=
  let fuelLimited := init_fuel_level.isSome
  match g.init_agent m n_agents_total agent_multiplicity seed with
  | none =>
    { module := m, ctx := 0, trapped := true, fuelLimited := fuelLimited,
      fuel := init_fuel_level }
  | some (m1, ctx) =>
    let r := pushConfig g ctx m1 (cfgParams engine_cfg)
    { module := r.1, ctx := ctx, trapped := r.2, fuelLimited := fuelLimited,
      fuel := init_fuel_level }

/-- `Agent.refuel` (`agent.py` lines 58-60): sets the store fuel only when
the agent is not trapped and a level is given. -/
def refuel (a : AgentState γ) (level : Option Nat) : AgentState γ :=
  if a.trapped = false ∧ level.isSome then { a with fuel := level } else a

/-- `Agent.fuel_level` (`agent.py` lines 62-64). -/
def fuel_level (a : AgentState γ) : Option Nat :=
  if a.fuelLimited then a.fuel else none

/-- `Agent.clear_world_state` under `fuel_guard` (`agent.py` lines 70-72). -/
def clear_world_state (g : GuestModule γ) (a : AgentState γ) : AgentState γ :=
  if a.trapped then a
  else
    match g.clear_world_state a.module a.ctx with
    | none => { a with trapped := true }
    | some m1 => { a with module := m1 }

/-- `Agent.update_ship` under `fuel_guard` (`agent.py` lines 74-78). -/
def update_ship (g : GuestModule γ) (a : AgentState γ) (agent_id : Nat)
    (is_alive : Bool) (pose : Pose) : AgentState γ :=
  if a.trapped then a
  else
    match g.update_ship a.module a.ctx agent_id (if is_alive then 1 else 0)
        pose.x pose.y pose.heading with
    | none => { a with trapped := true }
    | some m1 => { a with module := m1 }

/-- `Agent.update_shot` under `fuel_guard` (`agent.py` lines 80-84). -/
def update_shot (g : GuestModule γ) (a : AgentState γ) (agent_id : Nat)
    (lifetime : Int) (pose : Pose) : AgentState γ :=
  if a.trapped then a
  else
    match g.update_shot a.module a.ctx agent_id lifetime pose.x pose.y pose.heading with
    | none => { a with trapped := true }
    | some m1 => { a with module := m1 }

/-- `Agent.update_score` under `fuel_guard` (`agent.py` lines 86-88). -/
def update_score (g : GuestModule γ) (a : AgentState γ) (agent_id : Nat)
    (score : Int) : AgentState γ :=
  if a.trapped then a
  else
    match g.update_score a.module a.ctx agent_id score with
    | none => { a with trapped := true }
    | some m1 => { a with module := m1 }

/-- `Agent.make_action` under `fuel_guard` (`agent.py` lines 90-92): returns
the guest's action, or the sentinel `none` when latched or on a fresh trap. -/
def make_action (g : GuestModule γ) (a : AgentState γ) (agent_id ticks : Nat) :
    AgentState γ × Option Int :=
  if a.trapped then (a, none)
  else
    match g.make_action a.module a.ctx agent_id ticks with
    | none => ({ a with trapped := true }, none)
    | some (m1, act) => ({ a with module := m1 }, act)

end Agent

/-- The engine binding's ABI (`engine.py` wrapping the engine WASM module),
as a deterministic interface over an abstract engine state `ε`.  The query
exports (`is_alive`, `get_ship_pose`, `get_shot_pose`, `get_score`) read the
state; `set_action`, `tick` and `add_agent` transform it.  Engine traps are
fatal to the match and outside the claims considered here, so the interface
is total. -/
structure EngineIface (ε : Type) where
  is_alive : ε → Nat → Bool
  get_ship_pose : ε → Nat → Pose
  get_shot_pose : ε → Nat → Pose × Int
  get_score : ε → Nat → Int
  set_action : ε → Nat → Int → ε
  tick : ε → Nat → ε
  add_agent : ε → Pose → ε × Nat

/-- One observable call into the engine's mutating ABI, used to trace which
calls `Game.tick` makes. -/
inductive EngCall : Type where
  | setAction (agent_id : Nat) (action : Int)
  | tickCall (n_times : Nat)
deriving DecidableEq, Repr

/-- Wrap an engine so that its state also records the sequence of
`set_action` and `tick` calls made against it.  Queries are passed through
unchanged, so the wrapped engine behaves exactly like the base engine. -/
def traceEngine {ε : Type} (e : EngineIface ε) : EngineIface (ε × List EngCall) where
  is_alive := fun s agent_id => e.is_alive s.1 agent_id
  get_ship_pose := fun s agent_id => e.get_ship_pose s.1 agent_id
  get_shot_pose := fun s agent_id => e.get_shot_pose s.1 agent_id
  get_score := fun s agent_id => e.get_score s.1 agent_id
  set_action := fun s agent_id act =>
    (e.set_action s.1 agent_id act, s.2 ++ [EngCall.setAction agent_id act])
  tick := fun s n => (e.tick s.1 n, s.2 ++ [EngCall.tickCall n])
  add_agent := fun s p => (((e.add_agent s.1 p).1, s.2), (e.add_agent s.1 p).2)

/-- The `tick` entries of an engine call trace. -/
def tickCallsOf (tr : List EngCall) : List Nat :=
  tr.filterMap fun c =>
    match c with
    | EngCall.tickCall n => some n
    | _ => none

/-- Per-agent ship time series (`game.py` line 102). -/
structure ShipLog where
  x : List ℚ
  y : List ℚ
  heading : List ℚ
  alive : List Bool
deriving DecidableEq, Repr

/-- Per-agent shot time series (`game.py` line 106). -/
structure ShotLog where
  x : List ℚ
  y : List ℚ
  lifetime : List Int
deriving DecidableEq, Repr

/-- One team's history entry (`game.py` lines 100-111).  Python dicts keyed
by agent id become association lists in insertion (registration) order; the
logged action values keep Python's `None` as `Option.none`. -/
structure TeamLog where
  ships : List (Nat × ShipLog)
  shots : List (Nat × ShotLog)
  actions : List (Nat × List (Option Int))
  scores : List Int
  fuel : List (Option Nat)
deriving DecidableEq, Repr

/-- Apply `f` to the element at position `i` (Python `lst[i] = f(lst[i])`). -/
def modifyIdx {α : Type} (f : α → α) : Nat → List α → List α
  | _, [] => []
  | 0, x :: xs => f x :: xs
  | n + 1, x :: xs => x :: modifyIdx f n xs

/-- Apply `f` to the value stored under key `k` (Python `d[k] = f(d[k])`);
only the first matching entry is touched, matching dict-key uniqueness. -/
def modifyKey {β : Type} (k : Nat) (f : β → β) : List (Nat × β) → List (Nat × β)
  | [] => []
  | (k1, v) :: rest =>
    if k1 = k then (k1, f v) :: rest else (k1, v) :: modifyKey k f rest

/-- Look up key `k` (Python `d[k]`, as an `Option`). -/
def lookupKey {β : Type} (k : Nat) : List (Nat × β) → Option β
  | [] => none
  | (k1, v) :: rest => if k1 = k then some v else lookupKey k rest

/-- The host-side pseudo-random generator (`random.Random` in `game.py`),
modelled as an abstract deterministic state machine over a generator state
`ρ`: seeding, `randint(a, b)`, `uniform(a, b)`, `random()` and
`shuffle` (which consumes generator state and permutes a pose list). -/
structure RngOps (ρ : Type) where
  init : Option Int → ρ
  randint : ρ → Nat → Nat → Nat × ρ
  uniform : ρ → ℚ → ℚ → ℚ × ρ
  random : ρ → ℚ × ρ
  shuffle : ρ → List Pose → List Pose × ρ

/-- `game.py Game` — the match-runtime state: tick counter, fuel limit, the
engine state, the team list (agent binding plus its agent ids) and the
per-team history log. -/
structure GameState (γ ε : Type) where
  ticks : Nat
  agent_fuel_limit : Option Nat
  engine : ε
  teams : List (AgentState γ × List Nat)
  log : List TeamLog
deriving Repr

namespace Game

variable {γ ε : Type}

/-- Phase A of `Game.tick` (`game.py` lines 128-130): refuel and clear each
agent's world state, in team order. -/
def phaseA (g : GuestModule γ) (fl : Option Nat)
    (teams : List (AgentState γ × List Nat)) : List (AgentState γ × List Nat) :=
  teams.map fun t => (Agent.clear_world_state g (Agent.refuel t.1 fl), t.2)

/-- The broadcast of one agent's observations to every agent in the match
(`game.py` lines 156-159): for each team's agent, `update_ship`, then
`update_shot`, then `update_score`. -/
def broadcast (g : GuestModule γ) (agent_id : Nat) (is_alive : Bool)
    (ship : Pose) (lifetime : Int) (shot : Pose) (score : Int)
    (teams : List (AgentState γ × List Nat)) : List (AgentState γ × List Nat) :=
  teams.map fun t =>
    (Agent.update_score g
      (Agent.update_shot g (Agent.update_ship g t.1 agent_id is_alive ship)
        agent_id lifetime shot)
      agent_id score, t.2)

/-- Append one observation to a ship log (`game.py` lines 141-145). -/
def pushShipEntry (x y heading : ℚ) (is_alive : Bool) (s : ShipLog) : ShipLog :=
  { x := s.x ++ [x], y := s.y ++ [y], heading := s.heading ++ [heading],
    alive := s.alive ++ [is_alive] }

/-- Append one observation to a shot log (`game.py` lines 148-151). -/
def pushShotEntry (x y : ℚ) (lifetime : Int) (s : ShotLog) : ShotLog :=
  { x := s.x ++ [x], y := s.y ++ [y], lifetime := s.lifetime ++ [lifetime] }

/-- The inner loop of Phase B (`game.py` lines 135-159) over one team's
agent ids: query the engine, append the rounded ship and shot observations
to row `i` of the log, accumulate `team_alive` and the team score, and
broadcast the observations to every agent. -/
def observeIds (E : EngineIface ε) (g : GuestModule γ) (eng : ε) (i : Nat) :
    List Nat → List (AgentState γ × List Nat) → List TeamLog → Bool → Int →
    List (AgentState γ × List Nat) × List TeamLog × Bool × Int
  | [], teams, log, alive, acc => (teams, log, alive, acc)
  | agent_id :: rest, teams, log, alive, acc =>
    let is_alive := E.is_alive eng agent_id
    let ship_pose := E.get_ship_pose eng agent_id
    let alive1 := alive || is_alive
    let fShip := pushShipEntry (roundTo 4 ship_pose.x) (roundTo 4 ship_pose.y)
      (roundTo 1 ship_pose.heading) is_alive
    let log1 := modifyIdx
      (fun tl => { tl with ships := modifyKey agent_id fShip tl.ships }) i log
    let sp := E.get_shot_pose eng agent_id
    let fShot := pushShotEntry (roundTo 4 sp.1.x) (roundTo 4 sp.1.y) sp.2
    let log2 := modifyIdx
      (fun tl => { tl with shots := modifyKey agent_id fShot tl.shots }) i log1
    let score := E.get_score eng agent_id
    let teams1 := broadcast g agent_id is_alive ship_pose sp.2 sp.1 score teams
    observeIds E g eng i rest teams1 log2 alive1 (acc + score)

/-- The outer loop of Phase B (`game.py` lines 132-161): process each team's
ids at its row, append the accumulated team score, and collect the
`team_alive` flags in team order. -/
def observeTeams (E : EngineIface ε) (g : GuestModule γ) (eng : ε) :
    Nat → List (List Nat) → List (AgentState γ × List Nat) → List TeamLog →
    List Bool → List (AgentState γ × List Nat) × List TeamLog × List Bool
  | _, [], teams, log, aliveAcc => (teams, log, aliveAcc)
  | i, ids :: idss, teams, log, aliveAcc =>
    let r := observeIds E g eng i ids teams log false 0
    let log1 := modifyIdx (fun tl => { tl with scores := tl.scores ++ [r.2.2.2] }) i r.2.1
    observeTeams E g eng (i + 1) idss r.1 log1 (aliveAcc ++ [r.2.2.1])

/-- The inner loop of Phase C (`game.py` lines 164-167) over one team's
agent ids: call `make_action`, append the returned value (unsubstituted) to
the action log, and pass `action or 0` to the engine via `set_action`. -/
def actIds (E : EngineIface ε) (g : GuestModule γ) (ticks i : Nat) :
    List Nat → AgentState γ → List TeamLog → ε →
    AgentState γ × List TeamLog × ε
  | [], a, log, eng => (a, log, eng)
  | agent_id :: rest, a, log, eng =>
    let r := Agent.make_action g a agent_id ticks
    let log1 := modifyIdx
      (fun tl => { tl with actions := modifyKey agent_id (fun l => l ++ [r.2]) tl.actions })
      i log
    let eng1 := E.set_action eng agent_id (pyOr r.2)
    actIds E g ticks i rest r.1 log1 eng1

/-- The outer loop of Phase C (`game.py` lines 163-167), in team order. -/
def actTeams (E : EngineIface ε) (g : GuestModule γ) (ticks : Nat) :
    Nat → List (AgentState γ × List Nat) → List TeamLog → ε →
    List (AgentState γ × List Nat) × List TeamLog × ε
  | _, [], log, eng => ([], log, eng)
  | i, (a, ids) :: rest, log, eng =>
    let r := actIds E g ticks i ids a log eng
    let r2 := actTeams E g ticks (i + 1) rest r.2.1 r.2.2
    ((r.1, ids) :: r2.1, r2.2.1, r2.2.2)

/-- Phase D (`game.py` lines 169-170): append each team's current fuel
level to its log row. -/
def logFuel {γ : Type} :
    Nat → List (AgentState γ × List Nat) → List TeamLog → List TeamLog
  | _, [], log => log
  | i, (a, _) :: rest, log =>
    logFuel (i + 1) rest
      (modifyIdx (fun tl => { tl with fuel := tl.fuel ++ [Agent.fuel_level a] }) i log)

/-- `Game.tick` (`game.py` lines 127-177): Phase A (refuel and reset), Phase
B (observe and broadcast), Phase C (actions), Phase D (log fuel), Phase E
(advance the engine and the tick counter only when more than one team is
alive).  Returns the new state and `n_teams_alive`. -/
def tick (E : EngineIface ε) (g : GuestModule γ) (st : GameState γ ε)
    (n_times : Nat) : GameState γ ε × Nat :=
  let teamsA := phaseA g st.agent_fuel_limit st.teams
  let rB := observeTeams E g st.engine 0 (teamsA.map Prod.snd) teamsA st.log []
  let rC := actTeams E g st.ticks 0 rB.1 rB.2.1 st.engine
  let logD := logFuel 0 rC.1 rC.2.1
  let n_teams_alive := rB.2.2.count true
  if 1 < n_teams_alive then
    ({ ticks := st.ticks + n_times, agent_fuel_limit := st.agent_fuel_limit,
       engine := E.tick rC.2.2 n_times, teams := rC.1, log := logD }, n_teams_alive)
  else
    ({ ticks := st.ticks, agent_fuel_limit := st.agent_fuel_limit,
       engine := rC.2.2, teams := rC.1, log := logD }, n_teams_alive)

variable {γ ε ρ : Type}

/-- The agent-construction loop of `Game.__init__` (`game.py` lines 46-72):
for each agent module, in team order, draw `rng.randint(1, 1 << 32)` and
build the agent binding with that seed. -/
def buildAgents (R : RngOps ρ) (g : GuestModule γ) (cfg : Config)
    (n_total mult : Nat) (init_fuel_level : Option Nat) :
    List γ → ρ → List (AgentState γ) × ρ
  | [], r => ([], r)
  | m0 :: rest, r =>
    let s := R.randint r 1 (2 ^ 32)
    let a := Agent.init g m0 n_total mult s.1 cfg init_fuel_level
    let tail := buildAgents R g cfg n_total mult init_fuel_level rest s.2
    (a :: tail.1, tail.2)

/-- `math.ceil(math.sqrt k)` for natural `k` (`game.py` line 81). -/
def ceilSqrt (k : Nat) : Nat :=
  if Nat.sqrt k * Nat.sqrt k = k then Nat.sqrt k else Nat.sqrt k + 1

/-- The grid cells `(i, j)` enumerated by the pose-generating comprehension
(`game.py` lines 83-91): `i` is the outer loop, `j` the inner. -/
def gridCells (G : Nat) : List (Nat × Nat) :=
  (List.range G).flatMap fun i => (List.range G).map fun j => (i, j)

/-- The body of the pose comprehension (`game.py` lines 83-91): per cell,
draw `uniform(0.4, 0.6)` for `x`, then for `y`, then `random()` for the
heading, in that order. -/
def genGridPoses (R : RngOps ρ) (spacing : ℚ) :
    List (Nat × Nat) → ρ → List Pose × ρ
  | [], r => ([], r)
  | ij :: rest, r =>
    let ux := R.uniform r (2/5) (3/5)
    let uy := R.uniform ux.2 (2/5) (3/5)
    let h := R.random uy.2
    let tail := genGridPoses R spacing rest h.2
    ({ x := ((ij.1 : ℚ) + ux.1) * spacing, y := ((ij.2 : ℚ) + uy.1) * spacing,
       heading := 360 * h.1 } :: tail.1, tail.2)

/-- Registration of the initial poses with the engine (`game.py` line 95):
`add_agent` per pose, collecting the returned agent ids in order. -/
def registerPoses (E : EngineIface ε) : List Pose → ε → ε × List Nat
  | [], s => (s, [])
  | p :: rest, s =>
    let r := E.add_agent s p
    let tail := registerPoses E rest r.1
    (tail.1, r.2 :: tail.2)

/-- Slicing the registered ids into teams of `m` (`game.py` line 96). -/
def batchIds (ids : List Nat) (n m : Nat) : List (List Nat) :=
  (List.range n).map fun i => (ids.drop (i * m)).take m

/-- The empty per-team log allocated at construction (`game.py` lines
99-113). -/
def emptyTeamLog (batch : List Nat) : TeamLog :=
  { ships := batch.map fun agent_id => (agent_id, ⟨[], [], [], []⟩),
    shots := batch.map fun agent_id => (agent_id, ⟨[], [], []⟩),
    actions := batch.map fun agent_id => (agent_id, []),
    scores := [], fuel := [] }

/-- The tail of `Game.__init__` (`game.py` lines 95-113) once the initial
poses are known: register them, batch the ids into teams, and allocate the
empty log. -/
def assemble (E : EngineIface ε) (engineInit : ε) (agents : List (AgentState γ))
    (poses : List Pose) (n m : Nat) (agent_fuel_limit : Option Nat) :
    GameState γ ε :=
  let reg := registerPoses E poses engineInit
  let batches := batchIds reg.2 n m
  { ticks := 0, agent_fuel_limit := agent_fuel_limit, engine := reg.1,
    teams := agents.zip batches, log := batches.map emptyTeamLog }

/-- `Game.__init__` (`game.py` lines 15-113).  External collaborators enter
as parameters: `engineInit` is the engine state after `Engine` construction,
`cfg` the snapshotted config, `guests` the per-team guest-module states
after `WASMModule` instantiation.  All host-side randomness is drawn from
the single generator `R` seeded once with `seed`: first one agent seed per
team, then (when no poses are supplied) the grid poses and the shuffle.
The `ValueError` for a wrong `init_poses` length becomes `Except.error`. -/
def mkGame (E : EngineIface ε) (g : GuestModule γ) (R : RngOps ρ)
    (engineInit : ε) (cfg : Config) (guests : List γ) (agent_multiplicity : Nat)
    (init_poses : Option (List Pose)) (seed : Option Int)
    (agent_fuel_limit : Option Nat) : Except String (GameState γ ε) :=
  let init_fuel_level := agent_fuel_limit.map fun f => 100 * f
  let n := guests.length
  let m := agent_multiplicity
  let built := buildAgents R g cfg (n * m) m init_fuel_level guests (R.init seed)
  match init_poses with
  | some ps =>
    if ps.length ≠ n * m then Except.error "Invalid number of initial positions"
    else Except.ok (assemble E engineInit built.1 ps n m agent_fuel_limit)
  | none =>
    let G := ceilSqrt (n * m)
    let spacing : ℚ := 1 / (G : ℚ)
    let gen := genGridPoses R spacing (gridCells G) built.2
    let shuffled := R.shuffle gen.2 gen.1
    Except.ok (assemble E engineInit built.1 (shuffled.1.take (n * m)) n m
      agent_fuel_limit)

/-! Derived views of the tick phases, used to state and prove properties:
each is proven equal to the corresponding loop of `Game.tick` below. -/

/-- Apply `f` pairwise to the first `as.length` rows, keeping leftover rows. -/
def zipRows {A : Type} (f : A → TeamLog → TeamLog) : List A → List TeamLog → List TeamLog
  | [], rows => rows
  | _ :: _, [] => []
  | a :: as, row :: rows => f a row :: zipRows f as rows

/-- Fold `modifyKey` over a list of keys, each with its own update. -/
def foldModify {β : Type} (f : Nat → β → β) : List Nat → List (Nat × β) → List (Nat × β)
  | [], r => r
  | k :: rest, r => foldModify f rest (modifyKey k (f k) r)

/-- The ship-log entry Phase B appends for agent `agent_id`. -/
def shipPush (E : EngineIface ε) (eng : ε) (agent_id : Nat) : ShipLog → ShipLog :=
  pushShipEntry (roundTo 4 (E.get_ship_pose eng agent_id).x)
    (roundTo 4 (E.get_ship_pose eng agent_id).y)
    (roundTo 1 (E.get_ship_pose eng agent_id).heading) (E.is_alive eng agent_id)

/-- The shot-log entry Phase B appends for agent `agent_id`. -/
def shotPush (E : EngineIface ε) (eng : ε) (agent_id : Nat) : ShotLog → ShotLog :=
  pushShotEntry (roundTo 4 (E.get_shot_pose eng agent_id).1.x)
    (roundTo 4 (E.get_shot_pose eng agent_id).1.y) (E.get_shot_pose eng agent_id).2

/-- The team score accumulated by Phase B. -/
def teamScoreB (E : EngineIface ε) (eng : ε) (ids : List Nat) : Int :=
  ids.foldl (fun acc agent_id => acc + E.get_score eng agent_id) 0

/-- The `team_alive` flag accumulated by Phase B. -/
def teamAliveB (E : EngineIface ε) (eng : ε) (ids : List Nat) : Bool :=
  ids.any fun agent_id => E.is_alive eng agent_id

/-- Phase B's per-id effect on one team's log row (ship and shot pushes,
before the team score is appended). -/
def obsRowBNoScore (E : EngineIface ε) (eng : ε) (ids : List Nat) (tl : TeamLog) : TeamLog :=
  { ships := foldModify (shipPush E eng) ids tl.ships,
    shots := foldModify (shotPush E eng) ids tl.shots,
    actions := tl.actions, scores := tl.scores, fuel := tl.fuel }

/-- Phase B's total effect on one team's log row. -/
def obsRowB (E : EngineIface ε) (eng : ε) (ids : List Nat) (tl : TeamLog) : TeamLog :=
  { ships := foldModify (shipPush E eng) ids tl.ships,
    shots := foldModify (shotPush E eng) ids tl.shots,
    actions := tl.actions, scores := tl.scores ++ [teamScoreB E eng ids],
    fuel := tl.fuel }

/-- The action-log appends of Phase C for one team, threading the agent. -/
def pushActs (g : GuestModule γ) (ticks : Nat) :
    List Nat → AgentState γ → List (Nat × List (Option Int)) →
    AgentState γ × List (Nat × List (Option Int))
  | [], a, r => (a, r)
  | agent_id :: rest, a, r =>
    let m := Agent.make_action g a agent_id ticks
    pushActs g ticks rest m.1 (modifyKey agent_id (fun l => l ++ [m.2]) r)

/-- Phase C's total effect on one team's log row. -/
def actRowC (g : GuestModule γ) (ticks : Nat) (t : AgentState γ × List Nat)
    (tl : TeamLog) : TeamLog :=
  { tl with actions := (pushActs g ticks t.2 t.1 tl.actions).2 }

/-- Phase C's total effect on one team's agent. -/
def agentActs (g : GuestModule γ) (ticks : Nat) : List Nat → AgentState γ → AgentState γ
  | [], a => a
  | agent_id :: rest, a => agentActs g ticks rest (Agent.make_action g a agent_id ticks).1

/-- The engine calls Phase C makes for one team, in order. -/
def actTrace (g : GuestModule γ) (ticks : Nat) : List Nat → AgentState γ → List EngCall
  | [], _ => []
  | agent_id :: rest, a =>
    let m := Agent.make_action g a agent_id ticks
    EngCall.setAction agent_id (pyOr m.2) :: actTrace g ticks rest m.1

/-- The engine calls Phase C makes over all teams, in team order. -/
def actTraceTeams (g : GuestModule γ) (ticks : Nat) :
    List (AgentState γ × List Nat) → List EngCall
  | [] => []
  | (a, ids) :: rest => actTrace g ticks ids a ++ actTraceTeams g ticks rest

/-- Phase D's total effect on one team's log row. -/
def fuelRowD (t : AgentState γ × List Nat) (tl : TeamLog) : TeamLog :=
  { tl with fuel := tl.fuel ++ [Agent.fuel_level t.1] }

/-- Replay a list of engine calls against an engine state, used to relate
Phase C's engine effect to the call trace it makes. -/
def applyCalls (E : EngineIface ε) : ε → List EngCall → ε
  | e, [] => e
  | e, EngCall.setAction agent_id act :: rest => applyCalls E (E.set_action e agent_id act) rest
  | e, EngCall.tickCall n :: rest => applyCalls E (E.tick e n) rest

/-- Phases A and B of one `Game.tick` call, bundled (teams, log, alive flags). -/
def obsPart (E : EngineIface ε) (g : GuestModule γ) (st : GameState γ ε) :
    List (AgentState γ × List Nat) × List TeamLog × List Bool :=
  observeTeams E g st.engine 0 ((phaseA g st.agent_fuel_limit st.teams).map Prod.snd)
    (phaseA g st.agent_fuel_limit st.teams) st.log []

/-- Phase C of one `Game.tick` call, bundled (teams, log, engine). -/
def actPart (E : EngineIface ε) (g : GuestModule γ) (st : GameState γ ε) :
    List (AgentState γ × List Nat) × List TeamLog × ε :=
  actTeams E g st.ticks 0 (obsPart E g st).1 (obsPart E g st).2.1 st.engine

/-- The number of teams Phase B observes with at least one alive ship,
written the way the claims state it. -/
def specAliveTeams (E : EngineIface ε) (st : GameState γ ε) : Nat :=
  (st.teams.filter fun t => t.2.any fun agent_id => E.is_alive st.engine agent_id).length

end Game

/-- The logged action series of agent `agent_id` in team row `i`. -/
def actionsAt (log : List TeamLog) (i agent_id : Nat) : Option (List (Option Int)) :=
  (log[i]?).bind fun tl => lookupKey agent_id tl.actions

/-- Boolean no-duplicates check for agent-id lists. -/
def nodupB : List Nat → Bool
  | [] => true
  | x :: xs => (!(xs.contains x)) && nodupB xs

/-- All agent-id lists of the game's teams are duplicate-free (holds by
construction since the engine assigns dense distinct ids). -/
def teamsWF (st : GameState γ ε) : Bool :=
  (st.teams.map Prod.snd).all nodupB

/-- All four ship arrays have length `L`. -/
def shipLensOK (L : Nat) (s : ShipLog) : Bool :=
  (s.x.length == L) && (s.y.length == L) && (s.heading.length == L) && (s.alive.length == L)

/-- All three shot arrays have length `L`. -/
def shotLensOK (L : Nat) (s : ShotLog) : Bool :=
  (s.x.length == L) && (s.y.length == L) && (s.lifetime.length == L)

/-- Per-row arity check, with separate expected lengths for the ship, shot,
action, score and fuel series of the row (the tick phases extend them one
phase at a time). -/
def rowArityAt (ls lsh la lsc lf : Nat) (ids : List Nat) (tl : TeamLog) : Bool :=
  (tl.scores.length == lsc) && (tl.fuel.length == lf) &&
  (ids.all fun agent_id =>
    (match lookupKey agent_id tl.ships with
     | some s => shipLensOK ls s
     | none => false) &&
    (match lookupKey agent_id tl.shots with
     | some s => shotLensOK lsh s
     | none => false) &&
    (match lookupKey agent_id tl.actions with
     | some l => l.length == la
     | none => false))

/-- Row-wise arity over the aligned team-id and log lists. -/
def arityRowsAt (ls lsh la lsc lf : Nat) : List (List Nat) → List TeamLog → Bool
  | [], [] => true
  | ids :: idss, tl :: tls => rowArityAt ls lsh la lsc lf ids tl && arityRowsAt ls lsh la lsc lf idss tls
  | _, _ => false

/-- The arity invariant of the history log: for every team and every agent
id, all nine per-id/per-team series have length `L`. -/
def arityOK (st : GameState γ ε) (L : Nat) : Bool :=
  arityRowsAt L L L L L (st.teams.map Prod.snd) st.log

/-- The agent-seed draws of `Game.__init__`, in order: `k` successive
`rng.randint(1, 1 << 32)` calls. -/
def drawSeeds (R : RngOps ρ) : Nat → ρ → List Nat × ρ
  | 0, r => ([], r)
  | k + 1, r =>
    let s := R.randint r 1 (2 ^ 32)
    let rest := drawSeeds R k s.2
    (s.1 :: rest.1, rest.2)

/-! ## Decimal digits, used by the log-file and agent-file name patterns -/

/-- The decimal digit character for `d < 10`. -/
def digitChar : Nat → Char
  | 0 => '0' | 1 => '1' | 2 => '2' | 3 => '3' | 4 => '4'
  | 5 => '5' | 6 => '6' | 7 => '7' | 8 => '8' | _ => '9'

/-- Is `c` one of `'0'..'9'` (the regex class `\d` for these ASCII names)? -/
def isDigitC (c : Char) : Bool := 48 ≤ c.toNat && c.toNat ≤ 57

/-- The value of a digit string, most significant first (Python `int`). -/
def digitsVal (cs : List Char) : Nat :=
  cs.foldl (fun acc c => acc * 10 + (c.toNat - 48)) 0

/-- The decimal digits of `n`, most significant first (Python `str(n)`). -/
def natDigits (n : Nat) : List Char :=
  if h : n < 10 then [digitChar n]
  else natDigits (n / 10) ++ [digitChar (n % 10)]
termination_by n
decreasing_by
  exact Nat.div_lt_self (Nat.lt_of_lt_of_le (by norm_num) (Nat.le_of_not_lt h)) (by norm_num)

/-- Strip an exact leading character sequence, returning the remainder. -/
def dropFront : List Char → List Char → Option (List Char)
  | [], cs => some cs
  | _ :: _, [] => none
  | p :: ps, c :: cs => if c = p then dropFront ps cs else none

/-- Strip an exact trailing character sequence, returning the remainder. -/
def dropBack (suf cs : List Char) : Option (List Char) :=
  (dropFront suf.reverse cs.reverse).map List.reverse

/-- Parse a nonempty all-digit character list (the regex group `(\d+)`). -/
def parseDigits (cs : List Char) : Option Nat :=
  if cs ≠ [] ∧ cs.all isDigitC then some (digitsVal cs) else none

/-! ## `server.py` — `Logger`, `_run_game` agent selection, CLI validation -/

/-- The filename match `^scubywasm-log_(\d+)\.json$` (`server.py` line 19),
returning the captured integer. -/
def parseLogName (s : String) : Option Nat :=
  match dropFront ("scubywasm-log_".toList) s.toList with
  | none => none
  | some rest =>
    match dropBack (".json".toList) rest with
    | none => none
    | some mid => parseDigits mid

/-- The filename written by `Logger.save_log` (`server.py` line 29). -/
def mkLogName (i : Nat) : String :=
  "scubywasm-log_" ++ String.mk (natDigits i) ++ ".json"

/-- `server.py Logger` state: the `.json`-directory contents (file names)
and the next index. -/
structure LoggerSt where
  files : List String
  idx : Nat
deriving DecidableEq, Repr

/-- The index computed by `Logger.__init__` (`server.py` lines 19-26):
`0` if no file matches the pattern, otherwise one past the largest
captured integer. -/
def initIdx (files : List String) : Nat :=
  match files.filterMap parseLogName with
  | [] => 0
  | v :: vs => vs.foldl max v + 1

/-- `Logger.__init__` over a directory listing. -/
def loggerStart (files : List String) : LoggerSt :=
  { files := files, idx := initIdx files }

/-- `Logger.save_log` (`server.py` lines 28-34): write
`scubywasm-log_<idx>.json` and increment the index. -/
def saveLog (st : LoggerSt) : LoggerSt :=
  { files := st.files ++ [mkLogName st.idx], idx := st.idx + 1 }

/-- `K` successive `save_log` calls. -/
def saveLogs : Nat → LoggerSt → LoggerSt
  | 0, st => st
  | k + 1, st => saveLogs k (saveLog st)

/-- The filename match `^agent-v(\d+)\.wasm$` (`server.py` line 42). -/
def parseAgentFile (s : String) : Option Nat :=
  match dropFront ("agent-v".toList) s.toList with
  | none => none
  | some rest =>
    match dropBack (".wasm".toList) rest with
    | none => none
    | some mid => parseDigits mid

/-- Code-point lexicographic order on character lists (Python `str`/`Path`
comparison for these ASCII names). -/
def lexLt : List Char → List Char → Bool
  | [], [] => false
  | [], _ :: _ => true
  | _ :: _, [] => false
  | c :: cs, d :: ds => if c < d then true else if d < c then false else lexLt cs ds

/-- String order used for Python tuple/`sorted` comparisons. -/
def strLtB (a b : String) : Bool := lexLt a.toList b.toList

/-- Python `<` on the `(version, path)` pairs built in `_run_game`. -/
def pairLt (a b : Nat × String) : Bool :=
  decide (a.1 < b.1) || ((a.1 == b.1) && strLtB a.2 b.2)

/-- Python `max` step: replace the accumulator only by a strictly larger
element, so the first maximal element wins. -/
def pairMax (a b : Nat × String) : Nat × String := if pairLt a b then b else a

/-- The per-team-directory selection of `_run_game` (`server.py` lines
45-52): keep the files matching `agent-v(\d+).wasm`, and pick
`max(matches)` — the largest `(version, path)` pair — if any matched. -/
def selectTeamFile (files : List String) : Option String :=
  match files.filterMap (fun f => (parseAgentFile f).map fun v => (v, f)) with
  | [] => none
  | x :: rest => some (rest.foldl pairMax x).2

/-- One entry of `agents_dir.iterdir()`: its name, and its `*.wasm` file
names when it is a directory (`none` for a non-directory entry). -/
structure DirEnt where
  name : String
  files : Option (List String)
deriving DecidableEq, Repr

/-- The unsorted team-file collection loop of `_run_game` (`server.py`
lines 43-52): directories only, one selected file per directory. -/
def collectTeams (entries : List DirEnt) : List (String × String) :=
  entries.filterMap fun d =>
    match d.files with
    | none => none
    | some fs => (selectTeamFile fs).map fun f => (d.name, f)

/-- Stable insertion into a list sorted by team (parent-directory) name. -/
def insertTeam (x : String × String) : List (String × String) → List (String × String)
  | [] => [x]
  | y :: ys => if strLtB y.1 x.1 then y :: insertTeam x ys else x :: y :: ys

/-- `agent_wasmfiles.sort(key=lambda p: p.parent.name)` (`server.py` line
54), as a stable insertion sort. -/
def sortTeams : List (String × String) → List (String × String)
  | [] => []
  | x :: xs => insertTeam x (sortTeams xs)

/-- `_run_game`'s selected `(team, file)` list, in final order. -/
def runGameSelect (entries : List DirEnt) : List (String × String) :=
  sortTeams (collectTeams entries)

/-- No name inversions: each consecutive pair is weakly ascending. -/
def teamsSortedB : List (String × String) → Bool
  | [] => true
  | [_] => true
  | x :: y :: rest => (!(strLtB y.1 x.1)) && teamsSortedB (y :: rest)

/-- The keyword parameters accepted by `_run_game` (`server.py` line 40);
all are keyword-only and none has a default. -/
def runGameParams : List String :=
  ["engine_wasm", "agents_dir", "agent_multiplicity", "seed", "max_ticks"]

/-- The keyword arguments the supervisor `main` passes on every submission
(`server.py` lines 202-208 and 226/247): the `kwargs` dict in insertion
order, with `seed` merged in last. -/
def mainSubmitKwargs : List String :=
  ["engine_wasm", "agents_dir", "agent_multiplicity", "max_ticks",
   "agent_fuel_limit", "seed"]

/-- Python keyword binding for a keyword-only signature with no defaults:
the call raises `TypeError` iff some argument is unexpected or some
parameter is missing. -/
def kwargsBindError (params args : List String) : Bool :=
  (args.any fun k => !(params.contains k)) || (params.any fun k => !(args.contains k))

/-- The supervisor main loop's handling of one completed future
(`server.py` lines 236-243): an exception is printed and nothing is saved;
a truthy result is saved; a falsy result only warns. -/
def handleDone (st : LoggerSt) (r : Except String Bool) : LoggerSt :=
  match r with
  | Except.error _ => st
  | Except.ok b => if b then saveLog st else st

/-- Outcome of the supervisor's flag-validation block. -/
inductive CliOutcome : Type where
  | proceed
  | usageExit
  | pyTypeError
deriving DecidableEq, Repr

/-- The flag validation of the supervisor `main` (`server.py` lines
188-198), in source order: `--workers`, `--multiplicity`, `--fuel_limit`,
`--max_ticks`.  `--fuel_limit` defaults to `None`, and line 194 compares
`args.fuel_limit < 100` unconditionally, so the `None` case raises an
unhandled `TypeError`. -/
def validateServerFlags (workers multiplicity : Int) (fuel_limit : Option Int)
    (max_ticks : Int) : CliOutcome :=
  if workers < 1 then CliOutcome.usageExit
  else if multiplicity < 1 then CliOutcome.usageExit
  else
    match fuel_limit with
    | none => CliOutcome.pyTypeError
    | some fl =>
      if fl < 100 then CliOutcome.usageExit
      else if max_ticks < 1 then CliOutcome.usageExit
      else CliOutcome.proceed

/-! ## `service_runner.py` — scenario-file validation -/

/-- A JSON value as far as the validator distinguishes them. -/
inductive JVal : Type where
  | jstr (s : String)
  | jint (n : Int)
  | jother
deriving DecidableEq, Repr

/-- The two types named in the required-keys table. -/
inductive JTy : Type where
  | tstr
  | tint
deriving DecidableEq, Repr

/-- `SCENARIO_KEYS` (`service_runner.py` lines 106-109).  Note that
`max_rounds` is absent. -/
def scenKeys : List (String × JTy) :=
  [("name", JTy.tstr), ("multiplicity", JTy.tint), ("max_ticks", JTy.tint),
   ("fuel_limit", JTy.tint)]

/-- String-keyed lookup in a JSON object (association list). -/
def lookupJ (k : String) : List (String × JVal) → Option JVal
  | [] => none
  | (k1, v) :: rest => if k1 = k then some v else lookupJ k rest

/-- Does the JSON value have the table's type (`isinstance` check)? -/
def jHasTy (v : JVal) : JTy → Bool
  | JTy.tstr => match v with | JVal.jstr _ => true | _ => false
  | JTy.tint => match v with | JVal.jint _ => true | _ => false

/-- `_validate_scenario` (`service_runner.py` lines 111-126) on one object:
reject when a key of `SCENARIO_KEYS` is missing (reporting the missing
ones), then check the types; unknown keys are ignored. -/
def validateScen (o : List (String × JVal)) : Except String Unit :=
  let missing := (scenKeys.map Prod.fst).filter fun k => (lookupJ k o).isNone
  if missing ≠ [] then
    Except.error ("missing required properties: " ++ String.intercalate ", " missing)
  else if (scenKeys.all fun kt =>
      match lookupJ kt.1 o with
      | some v => jHasTy v kt.2
      | none => false) then
    Except.ok ()
  else Except.error "wrong property type"

/-- A Python runtime error distinguished by the claims: the `ValueError`
the validator raises versus a `KeyError` from a missing dict key. -/
inductive PyErr : Type where
  | valueError (msg : String)
  | keyError (k : String)
deriving DecidableEq, Repr

/-- The per-element step of `_read_scenarios` (`service_runner.py` lines
136-144): validate, then build the `Scenario` from
`scenario["name"], ..., scenario["max_rounds"]` — the last subscript is a
plain dict access and raises `KeyError` when the key is absent. -/
def readScenElem (o : List (String × JVal)) :
    Except PyErr (JVal × JVal × JVal × JVal × JVal) :=
  match validateScen o with
  | Except.error msg => Except.error (PyErr.valueError msg)
  | Except.ok _ =>
    match lookupJ "name" o, lookupJ "multiplicity" o, lookupJ "max_ticks" o,
        lookupJ "fuel_limit" o, lookupJ "max_rounds" o with
    | some a, some b, some c, some d, some e => Except.ok (a, b, c, d, e)
    | none, _, _, _, _ => Except.error (PyErr.keyError "name")
    | _, none, _, _, _ => Except.error (PyErr.keyError "multiplicity")
    | _, _, none, _, _ => Except.error (PyErr.keyError "max_ticks")
    | _, _, _, none, _ => Except.error (PyErr.keyError "fuel_limit")
    | _, _, _, _, none => Except.error (PyErr.keyError "max_rounds")

/-! ## Concrete instances used by witnesses and counterexamples -/

/-- A guest module whose exports all succeed; `make_action` returns `7`. -/
def okGuest : GuestModule Unit where
  init_agent := fun _ _ _ _ => some ((), 1)
  set_config_parameter := fun _ _ _ _ => some ()
  clear_world_state := fun _ _ => some ()
  update_ship := fun _ _ _ _ _ _ _ => some ()
  update_shot := fun _ _ _ _ _ _ _ => some ()
  update_score := fun _ _ _ _ => some ()
  make_action := fun _ _ _ _ => some ((), some 7)

/-- A guest module that traps during `init_agent` (e.g. the memory-overrun
construction trap of the spec's scenarios). -/
def trapGuest : GuestModule Unit :=
  { okGuest with init_agent := fun _ _ _ _ => none }

/-- A concrete engine: every ship alive, fixed poses and scores; the state
counts registered agents so that `add_agent` returns dense distinct ids. -/
def cEngine : EngineIface Nat where
  is_alive := fun _ _ => true
  get_ship_pose := fun _ _ => { x := 0, y := 0, heading := 0 }
  get_shot_pose := fun _ _ => ({ x := 0, y := 0, heading := 0 }, -1)
  get_score := fun _ _ => 0
  set_action := fun s _ _ => s
  tick := fun s _ => s
  add_agent := fun s _ => (s + 1, s)

/-- A concrete deterministic generator model. -/
def cRng : RngOps Nat where
  init := fun _ => 0
  randint := fun r a _ => (a, r + 1)
  uniform := fun r a _ => (a, r + 1)
  random := fun r => (0, r + 1)
  shuffle := fun r l => (l, r + 1)

/-- A concrete config. -/
def cfg0 : Config :=
  { ship_max_turn_rate := 1, ship_max_velocity := 1, ship_hit_radius := 1,
    shot_velocity := 1, shot_lifetime := 10 }

/-- A single-team match built by `Game.__init__` with the well-behaved
guest (the spec's single-team scenario: seed given, multiplicity 1). -/
def oneTeamGame : GameState Unit Nat :=
  match Game.mkGame cEngine okGuest cRng 0 cfg0 [()] 1 none (some 1) none with
  | Except.ok st => st
  | Except.error _ =>
    { ticks := 0, agent_fuel_limit := none, engine := 0, teams := [], log := [] }

/-- A single-team match whose agent trapped during construction. -/
def trapGame : GameState Unit Nat :=
  match Game.mkGame cEngine trapGuest cRng 0 cfg0 [()] 1 none (some 1) none with
  | Except.ok st => st
  | Except.error _ =>
    { ticks := 0, agent_fuel_limit := none, engine := 0, teams := [], log := [] }

/-- The trap-game match over the call-tracing engine. -/
def trapGameTr : GameState Unit (Nat × List EngCall) :=
  match Game.mkGame (traceEngine cEngine) trapGuest cRng (0, []) cfg0 [()] 1 none
      (some 1) none with
  | Except.ok st => st
  | Except.error _ =>
    { ticks := 0, agent_fuel_limit := none, engine := (0, []), teams := [], log := [] }

/-- The single-team match over the call-tracing engine. -/
def oneTeamGameTr : GameState Unit (Nat × List EngCall) :=
  match Game.mkGame (traceEngine cEngine) okGuest cRng (0, []) cfg0 [()] 1 none
      (some 1) none with
  | Except.ok st => st
  | Except.error _ =>
    { ticks := 0, agent_fuel_limit := none, engine := (0, []), teams := [], log := [] }

/-- A concrete agent binding that trapped during construction. -/
def aTrapped : AgentState Unit := Agent.init trapGuest () 1 1 1 cfg0 none

/-- A concrete scenario-file element with every documented key except
`max_rounds`. -/
def scenEx : List (String × JVal) :=
  [("name", JVal.jstr "duel"), ("multiplicity", JVal.jint 2),
   ("max_ticks", JVal.jint 100), ("fuel_limit", JVal.jint 1000)]

/-! ## List-level lemmas -/

open Game

theorem modifyIdx_id {α : Type} : ∀ (i : Nat) (l : List α), modifyIdx (fun x => x) i l = l := by
  intro i l
  induction l generalizing i with
  | nil => cases i <;> rfl
  | cons x xs ih => cases i <;> simp [modifyIdx, ih]

theorem modifyIdx_length {α : Type} (f : α → α) :
    ∀ (i : Nat) (l : List α), (modifyIdx f i l).length = l.length := by
  intro i l
  induction l generalizing i with
  | nil => cases i <;> rfl
  | cons x xs ih => cases i <;> simp [modifyIdx, ih]

theorem modifyIdx_of_length_le {α : Type} (f : α → α) :
    ∀ (i : Nat) (l : List α), l.length ≤ i → modifyIdx f i l = l := by
  intro i l
  induction l generalizing i with
  | nil => intro _; cases i <;> rfl
  | cons x xs ih =>
    intro h
    cases i with
    | zero => simp at h
    | succ n => simp only [List.length_cons, Nat.succ_le_succ_iff] at h; simp [modifyIdx, ih n h]

theorem modifyIdx_modifyIdx {α : Type} (f g : α → α) :
    ∀ (i : Nat) (l : List α), modifyIdx f i (modifyIdx g i l) = modifyIdx (fun x => f (g x)) i l := by
  intro i l
  induction l generalizing i with
  | nil => cases i <;> rfl
  | cons x xs ih => cases i <;> simp [modifyIdx, ih]

theorem modifyIdx_append_cons {α : Type} (f : α → α) :
    ∀ (pre : List α) (x : α) (xs : List α),
      modifyIdx f pre.length (pre ++ x :: xs) = pre ++ f x :: xs := by
  intro pre x xs
  induction pre with
  | nil => rfl
  | cons p ps ih => simp [modifyIdx, ih]

theorem getElem?_modifyIdx_ne {α : Type} (f : α → α) :
    ∀ (i j : Nat) (l : List α), i ≠ j → (modifyIdx f i l)[j]? = l[j]? := by
  intro i j l
  induction l generalizing i j with
  | nil => intro _; cases i <;> rfl
  | cons x xs ih =>
    intro h
    cases i with
    | zero =>
      cases j with
      | zero => exact absurd rfl h
      | succ m => simp [modifyIdx]
    | succ n =>
      cases j with
      | zero => simp [modifyIdx]
      | succ m => simp [modifyIdx, ih n m (by omega)]

theorem getElem?_modifyIdx_self {α : Type} (f : α → α) :
    ∀ (i : Nat) (l : List α), (modifyIdx f i l)[i]? = (l[i]?).map f := by
  intro i l
  induction l generalizing i with
  | nil => cases i <;> simp [modifyIdx]
  | cons x xs ih => cases i <;> simp [modifyIdx, ih]

theorem lookupKey_modifyKey_self {β : Type} (k : Nat) (f : β → β) :
    ∀ (l : List (Nat × β)), lookupKey k (modifyKey k f l) = (lookupKey k l).map f := by
  intro l
  induction l with
  | nil => rfl
  | cons p rest ih =>
    obtain ⟨k1, v⟩ := p
    by_cases h : k1 = k <;> simp [modifyKey, lookupKey, h, ih]

theorem lookupKey_modifyKey_ne {β : Type} (k k1 : Nat) (f : β → β) (h : k1 ≠ k) :
    ∀ (l : List (Nat × β)), lookupKey k1 (modifyKey k f l) = lookupKey k1 l := by
  intro l
  induction l with
  | nil => rfl
  | cons p rest ih =>
    obtain ⟨k2, v⟩ := p
    by_cases h2 : k2 = k
    · subst h2
      simp [modifyKey, lookupKey, Ne.symm h]
    · simp [modifyKey, lookupKey, h2, ih]

theorem lookupKey_foldModify_notMem {β : Type} (f : Nat → β → β) (k : Nat) :
    ∀ (ids : List Nat) (r : List (Nat × β)), k ∉ ids →
      lookupKey k (foldModify f ids r) = lookupKey k r := by
  intro ids
  induction ids with
  | nil => intro r _; rfl
  | cons i rest ih =>
    intro r h
    have h1 : k ≠ i := fun e => h (e ▸ List.mem_cons_self i rest)
    have h2 : k ∉ rest := fun e => h (List.mem_cons_of_mem i e)
    simp [foldModify, ih _ h2, lookupKey_modifyKey_ne i k (f i) h1]

theorem nodupB_cons {x : Nat} {xs : List Nat} (h : nodupB (x :: xs) = true) :
    x ∉ xs ∧ nodupB xs = true := by
  simp only [nodupB, Bool.and_eq_true, Bool.not_eq_true'] at h
  exact ⟨by simpa using h.1, h.2⟩

theorem lookupKey_foldModify_mem {β : Type} (f : Nat → β → β) (k : Nat) :
    ∀ (ids : List Nat) (r : List (Nat × β)), nodupB ids = true → k ∈ ids →
      lookupKey k (foldModify f ids r) = (lookupKey k r).map (f k) := by
  intro ids
  induction ids with
  | nil => intro r _ hm; cases hm
  | cons i rest ih =>
    intro r hn hm
    obtain ⟨hni, hnr⟩ := nodupB_cons hn
    by_cases hk : k = i
    · subst hk
      simp [foldModify, lookupKey_foldModify_notMem f k rest _ hni,
        lookupKey_modifyKey_self k (f k) r]
    · have hmr : k ∈ rest := by
        cases List.mem_cons.mp hm with
        | inl h => exact absurd h hk
        | inr h => exact h
      simp [foldModify, ih _ hnr hmr, lookupKey_modifyKey_ne i k (f i) hk]

theorem zipRows_getElem?_of_some {A : Type} (f : A → TeamLog → TeamLog) :
    ∀ (as : List A) (rows : List TeamLog) (k : Nat) (a : A), as[k]? = some a →
      (zipRows f as rows)[k]? = (rows[k]?).map (f a) := by
  intro as
  induction as with
  | nil => intro rows k a h; simp at h
  | cons a0 as ih =>
    intro rows k a h
    cases rows with
    | nil => simp [zipRows]
    | cons row rows1 =>
      cases k with
      | zero => simp_all [zipRows]
      | succ m => simp_all [zipRows, ih rows1 m a]

/-! ## Trapped-agent lemmas (`fuel_guard` short-circuits) -/

theorem Agent.refuel_trapped {γ : Type} {a : AgentState γ} (h : a.trapped = true)
    (lvl : Option Nat) : Agent.refuel a lvl = a := by
  simp [Agent.refuel, h]

theorem Agent.clear_world_state_trapped {γ : Type} (g : GuestModule γ) {a : AgentState γ}
    (h : a.trapped = true) : Agent.clear_world_state g a = a := by
  simp [Agent.clear_world_state, h]

theorem Agent.update_ship_trapped {γ : Type} (g : GuestModule γ) {a : AgentState γ}
    (h : a.trapped = true) (agent_id : Nat) (is_alive : Bool) (pose : Pose) :
    Agent.update_ship g a agent_id is_alive pose = a := by
  simp [Agent.update_ship, h]

theorem Agent.update_shot_trapped {γ : Type} (g : GuestModule γ) {a : AgentState γ}
    (h : a.trapped = true) (agent_id : Nat) (lifetime : Int) (pose : Pose) :
    Agent.update_shot g a agent_id lifetime pose = a := by
  simp [Agent.update_shot, h]

theorem Agent.update_score_trapped {γ : Type} (g : GuestModule γ) {a : AgentState γ}
    (h : a.trapped = true) (agent_id : Nat) (score : Int) :
    Agent.update_score g a agent_id score = a := by
  simp [Agent.update_score, h]

theorem Agent.make_action_trapped {γ : Type} (g : GuestModule γ) {a : AgentState γ}
    (h : a.trapped = true) (agent_id ticks : Nat) :
    Agent.make_action g a agent_id ticks = (a, none) := by
  simp [Agent.make_action, h]

theorem agentActs_trapped {γ : Type} (g : GuestModule γ) (ticks : Nat) :
    ∀ (ids : List Nat) {a : AgentState γ}, a.trapped = true →
      Game.agentActs g ticks ids a = a := by
  intro ids
  induction ids with
  | nil => intro a _; rfl
  | cons i rest ih =>
    intro a h
    simp [Game.agentActs, Agent.make_action_trapped g h, ih h]

theorem actTrace_trapped {γ : Type} (g : GuestModule γ) (ticks : Nat) :
    ∀ (ids : List Nat) {a : AgentState γ}, a.trapped = true →
      Game.actTrace g ticks ids a = ids.map (fun agent_id => EngCall.setAction agent_id 0) := by
  intro ids
  induction ids with
  | nil => intro a _; rfl
  | cons i rest ih =>
    intro a h
    simp [Game.actTrace, Agent.make_action_trapped g h, ih h, pyOr]

theorem pushActs_trapped {γ : Type} (g : GuestModule γ) (ticks : Nat) :
    ∀ (ids : List Nat) {a : AgentState γ} (r : List (Nat × List (Option Int))),
      a.trapped = true →
      Game.pushActs g ticks ids a r = (a, foldModify (fun _ l => l ++ [none]) ids r) := by
  intro ids
  induction ids with
  | nil => intro a r _; rfl
  | cons i rest ih =>
    intro a r h
    simp [Game.pushActs, Agent.make_action_trapped g h, ih _ h, foldModify]

/-! ## Characterizations of the tick phases -/

theorem observeIds_log {γ ε : Type} (E : EngineIface ε) (g : GuestModule γ) (eng : ε) (i : Nat) :
    ∀ (ids : List Nat) (teams : List (AgentState γ × List Nat)) (log : List TeamLog)
      (alive : Bool) (acc : Int),
      (observeIds E g eng i ids teams log alive acc).2.1 =
      modifyIdx (obsRowBNoScore E eng ids) i log := by
  intro ids
  induction ids with
  | nil =>
    intro teams log alive acc
    exact (modifyIdx_id i log).symm
  | cons id0 rest ih =>
    intro teams log alive acc
    simp only [observeIds]
    rw [ih]
    rw [modifyIdx_modifyIdx, modifyIdx_modifyIdx]
    refine congrArg (fun F => modifyIdx F i log) ?_
    funext tl
    simp [obsRowBNoScore, foldModify, shipPush, shotPush]

theorem observeIds_score {γ ε : Type} (E : EngineIface ε) (g : GuestModule γ) (eng : ε) (i : Nat) :
    ∀ (ids : List Nat) (teams : List (AgentState γ × List Nat)) (log : List TeamLog)
      (alive : Bool) (acc : Int),
      (observeIds E g eng i ids teams log alive acc).2.2.2 = acc + teamScoreB E eng ids := by
  intro ids
  induction ids with
  | nil => intro teams log alive acc; simp [observeIds, teamScoreB]
  | cons id0 rest ih =>
    intro teams log alive acc
    simp only [observeIds]
    rw [ih]
    have h : teamScoreB E eng (id0 :: rest) = E.get_score eng id0 + teamScoreB E eng rest := by
      have aux : ∀ (l : List Nat) (a : Int),
          l.foldl (fun x agent_id => x + E.get_score eng agent_id) a = a + teamScoreB E eng l := by
        intro l
        induction l with
        | nil => intro a; simp [teamScoreB]
        | cons j js ihj =>
          intro a
          simp only [teamScoreB, List.foldl_cons] at *
          rw [ihj, ihj (0 + E.get_score eng j)]
          omega
      calc teamScoreB E eng (id0 :: rest)
          = rest.foldl (fun x agent_id => x + E.get_score eng agent_id)
              (0 + E.get_score eng id0) := rfl
        _ = (0 + E.get_score eng id0) + teamScoreB E eng rest := aux rest _
        _ = E.get_score eng id0 + teamScoreB E eng rest := by omega
    rw [h]
    omega

theorem observeIds_alive {γ ε : Type} (E : EngineIface ε) (g : GuestModule γ) (eng : ε) (i : Nat) :
    ∀ (ids : List Nat) (teams : List (AgentState γ × List Nat)) (log : List TeamLog)
      (alive : Bool) (acc : Int),
      (observeIds E g eng i ids teams log alive acc).2.2.1 = (alive || teamAliveB E eng ids) := by
  intro ids
  induction ids with
  | nil => intro teams log alive acc; simp [observeIds, teamAliveB]
  | cons id0 rest ih =>
    intro teams log alive acc
    simp only [observeIds]
    rw [ih]
    simp [teamAliveB, Bool.or_assoc]

theorem observeIds_teams_snd {γ ε : Type} (E : EngineIface ε) (g : GuestModule γ) (eng : ε) (i : Nat) :
    ∀ (ids : List Nat) (teams : List (AgentState γ × List Nat)) (log : List TeamLog)
      (alive : Bool) (acc : Int),
      (observeIds E g eng i ids teams log alive acc).1.map Prod.snd = teams.map Prod.snd := by
  intro ids
  induction ids with
  | nil => intro teams log alive acc; rfl
  | cons id0 rest ih =>
    intro teams log alive acc
    simp only [observeIds]
    rw [ih]
    simp [broadcast, List.map_map]

theorem observeIds_teams_entry {γ ε : Type} (E : EngineIface ε) (g : GuestModule γ) (eng : ε)
    (i : Nat) :
    ∀ (ids : List Nat) (teams : List (AgentState γ × List Nat)) (log : List TeamLog)
      (alive : Bool) (acc : Int) (i0 : Nat) (a : AgentState γ) (ids0 : List Nat),
      teams[i0]? = some (a, ids0) → a.trapped = true →
      (observeIds E g eng i ids teams log alive acc).1[i0]? = some (a, ids0) := by
  intro ids
  induction ids with
  | nil => intro teams log alive acc i0 a ids0 h _; exact h
  | cons id0 rest ih =>
    intro teams log alive acc i0 a ids0 h ht
    simp only [observeIds]
    refine ih _ _ _ _ i0 a ids0 ?_ ht
    simp only [broadcast, List.getElem?_map, h, Option.map_some']
    rw [Agent.update_ship_trapped g ht, Agent.update_shot_trapped g ht,
      Agent.update_score_trapped g ht]

theorem observeTeams_log_out {γ ε : Type} (E : EngineIface ε) (g : GuestModule γ) (eng : ε) :
    ∀ (idss : List (List Nat)) (teams : List (AgentState γ × List Nat)) (log : List TeamLog)
      (acc : List Bool) (i : Nat), log.length ≤ i →
      (observeTeams E g eng i idss teams log acc).2.1 = log := by
  intro idss
  induction idss with
  | nil => intro teams log acc i _; rfl
  | cons ids idss ih =>
    intro teams log acc i h
    simp only [observeTeams]
    rw [observeIds_log, modifyIdx_of_length_le _ _ _ h, modifyIdx_of_length_le _ _ _ h]
    exact ih _ _ _ _ (Nat.le_succ_of_le h)

theorem observeTeams_log {γ ε : Type} (E : EngineIface ε) (g : GuestModule γ) (eng : ε) :
    ∀ (idss : List (List Nat)) (teams : List (AgentState γ × List Nat)) (pre rows : List TeamLog)
      (acc : List Bool),
      (observeTeams E g eng pre.length idss teams (pre ++ rows) acc).2.1 =
      pre ++ zipRows (obsRowB E eng) idss rows := by
  intro idss
  induction idss with
  | nil => intro teams pre rows acc; simp [observeTeams, zipRows]
  | cons ids idss ih =>
    intro teams pre rows acc
    cases rows with
    | nil =>
      rw [observeTeams_log_out E g eng _ _ _ _ _ (by simp)]
      simp [zipRows]
    | cons row rows1 =>
      simp only [observeTeams]
      rw [observeIds_log, observeIds_score, modifyIdx_append_cons, modifyIdx_append_cons]
      have hlen : (pre ++ [obsRowB E eng ids row]).length = pre.length + 1 := by simp
      have hih := ih (observeIds E g eng pre.length ids teams (pre ++ row :: rows1) false 0).1
        (pre ++ [obsRowB E eng ids row]) rows1 (acc ++ [(observeIds E g eng pre.length ids teams
          (pre ++ row :: rows1) false 0).2.2.1])
      rw [hlen] at hih
      have hrow : ({ obsRowBNoScore E eng ids row with
          scores := (obsRowBNoScore E eng ids row).scores ++ [0 + teamScoreB E eng ids] } :
          TeamLog) = obsRowB E eng ids row := by
        simp [obsRowB, obsRowBNoScore]
      rw [hrow]
      simpa [zipRows] using hih

theorem observeTeams_alive {γ ε : Type} (E : EngineIface ε) (g : GuestModule γ) (eng : ε) :
    ∀ (idss : List (List Nat)) (teams : List (AgentState γ × List Nat)) (log : List TeamLog)
      (acc : List Bool) (i : Nat),
      (observeTeams E g eng i idss teams log acc).2.2 =
      acc ++ idss.map (fun ids => teamAliveB E eng ids) := by
  intro idss
  induction idss with
  | nil => intro teams log acc i; simp [observeTeams]
  | cons ids idss ih =>
    intro teams log acc i
    simp only [observeTeams]
    rw [ih, observeIds_alive]
    simp

theorem observeTeams_teams_snd {γ ε : Type} (E : EngineIface ε) (g : GuestModule γ) (eng : ε) :
    ∀ (idss : List (List Nat)) (teams : List (AgentState γ × List Nat)) (log : List TeamLog)
      (acc : List Bool) (i : Nat),
      (observeTeams E g eng i idss teams log acc).1.map Prod.snd = teams.map Prod.snd := by
  intro idss
  induction idss with
  | nil => intro teams log acc i; rfl
  | cons ids idss ih =>
    intro teams log acc i
    simp only [observeTeams]
    rw [ih, observeIds_teams_snd]

theorem observeTeams_teams_entry {γ ε : Type} (E : EngineIface ε) (g : GuestModule γ) (eng : ε) :
    ∀ (idss : List (List Nat)) (teams : List (AgentState γ × List Nat)) (log : List TeamLog)
      (acc : List Bool) (i : Nat) (i0 : Nat) (a : AgentState γ) (ids0 : List Nat),
      teams[i0]? = some (a, ids0) → a.trapped = true →
      (observeTeams E g eng i idss teams log acc).1[i0]? = some (a, ids0) := by
  intro idss
  induction idss with
  | nil => intro teams log acc i i0 a ids0 h _; exact h
  | cons ids idss ih =>
    intro teams log acc i i0 a ids0 h ht
    simp only [observeTeams]
    exact ih _ _ _ _ i0 a ids0 (observeIds_teams_entry E g eng i ids _ _ _ _ i0 a ids0 h ht) ht

theorem actIds_log {γ ε : Type} (E : EngineIface ε) (g : GuestModule γ) (tk i : Nat) :
    ∀ (ids : List Nat) (a : AgentState γ) (log : List TeamLog) (eng : ε),
      (actIds E g tk i ids a log eng).2.1 =
      modifyIdx (fun tl => { tl with actions := (pushActs g tk ids a tl.actions).2 }) i log := by
  intro ids
  induction ids with
  | nil =>
    intro a log eng
    exact (modifyIdx_id i log).symm
  | cons id0 rest ih =>
    intro a log eng
    simp only [actIds]
    rw [ih, modifyIdx_modifyIdx]
    refine congrArg (fun F => modifyIdx F i log) ?_
    funext tl
    simp [pushActs]

theorem actIds_agent {γ ε : Type} (E : EngineIface ε) (g : GuestModule γ) (tk i : Nat) :
    ∀ (ids : List Nat) (a : AgentState γ) (log : List TeamLog) (eng : ε),
      (actIds E g tk i ids a log eng).1 = agentActs g tk ids a := by
  intro ids
  induction ids with
  | nil => intro a log eng; rfl
  | cons id0 rest ih =>
    intro a log eng
    simp only [actIds, agentActs]
    rw [ih]

theorem actIds_engine {γ ε : Type} (E : EngineIface ε) (g : GuestModule γ) (tk i : Nat) :
    ∀ (ids : List Nat) (a : AgentState γ) (log : List TeamLog) (eng : ε),
      (actIds E g tk i ids a log eng).2.2 = applyCalls E eng (actTrace g tk ids a) := by
  intro ids
  induction ids with
  | nil => intro a log eng; rfl
  | cons id0 rest ih =>
    intro a log eng
    simp only [actIds, actTrace, applyCalls]
    rw [ih]

theorem applyCalls_append {ε : Type} (E : EngineIface ε) :
    ∀ (cs1 cs2 : List EngCall) (e : ε),
      applyCalls E e (cs1 ++ cs2) = applyCalls E (applyCalls E e cs1) cs2 := by
  intro cs1
  induction cs1 with
  | nil => intro cs2 e; rfl
  | cons c cs ih =>
    intro cs2 e
    cases c <;> simp [applyCalls, ih]

theorem actTeams_log_out {γ ε : Type} (E : EngineIface ε) (g : GuestModule γ) (tk : Nat) :
    ∀ (teams : List (AgentState γ × List Nat)) (log : List TeamLog) (eng : ε) (i : Nat),
      log.length ≤ i → (actTeams E g tk i teams log eng).2.1 = log := by
  intro teams
  induction teams with
  | nil => intro log eng i _; rfl
  | cons t rest ih =>
    intro log eng i h
    obtain ⟨a, ids⟩ := t
    simp only [actTeams]
    rw [actIds_log, modifyIdx_of_length_le _ _ _ h]
    exact ih _ _ _ (Nat.le_succ_of_le h)

theorem actTeams_log {γ ε : Type} (E : EngineIface ε) (g : GuestModule γ) (tk : Nat) :
    ∀ (teams : List (AgentState γ × List Nat)) (pre rows : List TeamLog) (eng : ε),
      (actTeams E g tk pre.length teams (pre ++ rows) eng).2.1 =
      pre ++ zipRows (actRowC g tk) teams rows := by
  intro teams
  induction teams with
  | nil => intro pre rows eng; simp [actTeams, zipRows]
  | cons t rest ih =>
    intro pre rows eng
    obtain ⟨a, ids⟩ := t
    cases rows with
    | nil =>
      rw [actTeams_log_out E g tk _ _ _ _ (by simp)]
      simp [zipRows]
    | cons row rows1 =>
      simp only [actTeams]
      rw [actIds_log, modifyIdx_append_cons]
      have hlen : (pre ++ [actRowC g tk (a, ids) row]).length = pre.length + 1 := by simp
      have := ih (pre ++ [actRowC g tk (a, ids) row]) rows1
        (actIds E g tk pre.length ids a (pre ++ row :: rows1) eng).2.2
      rw [hlen] at this
      have hrow : ({ row with actions := (pushActs g tk ids a row.actions).2 } : TeamLog) =
          actRowC g tk (a, ids) row := rfl
      rw [hrow]
      simpa [zipRows] using this

theorem actTeams_teams {γ ε : Type} (E : EngineIface ε) (g : GuestModule γ) (tk : Nat) :
    ∀ (teams : List (AgentState γ × List Nat)) (log : List TeamLog) (eng : ε) (i : Nat),
      (actTeams E g tk i teams log eng).1 =
      teams.map (fun t => (agentActs g tk t.2 t.1, t.2)) := by
  intro teams
  induction teams with
  | nil => intro log eng i; rfl
  | cons t rest ih =>
    intro log eng i
    obtain ⟨a, ids⟩ := t
    simp only [actTeams, List.map_cons]
    rw [actIds_agent, ih]

theorem actTeams_engine {γ ε : Type} (E : EngineIface ε) (g : GuestModule γ) (tk : Nat) :
    ∀ (teams : List (AgentState γ × List Nat)) (log : List TeamLog) (eng : ε) (i : Nat),
      (actTeams E g tk i teams log eng).2.2 =
      applyCalls E eng (actTraceTeams g tk teams) := by
  intro teams
  induction teams with
  | nil => intro log eng i; rfl
  | cons t rest ih =>
    intro log eng i
    obtain ⟨a, ids⟩ := t
    simp only [actTeams, actTraceTeams]
    rw [ih, actIds_engine, applyCalls_append]

theorem applyCalls_traceEngine {ε : Type} (e : EngineIface ε) :
    ∀ (calls : List EngCall) (s : ε × List EngCall),
      (applyCalls (traceEngine e) s calls).2 = s.2 ++ calls := by
  intro calls
  induction calls with
  | nil => intro s; simp [applyCalls]
  | cons c cs ih =>
    intro s
    cases c with
    | setAction agent_id act =>
      have hstep : (traceEngine e).set_action s agent_id act =
          (e.set_action s.1 agent_id act, s.2 ++ [EngCall.setAction agent_id act]) := rfl
      simp only [applyCalls, hstep, ih]
      simp
    | tickCall m =>
      have hstep : (traceEngine e).tick s m =
          (e.tick s.1 m, s.2 ++ [EngCall.tickCall m]) := rfl
      simp only [applyCalls, hstep, ih]
      simp

theorem logFuel_out {γ : Type} :
    ∀ (teams : List (AgentState γ × List Nat)) (log : List TeamLog) (i : Nat),
      log.length ≤ i → logFuel i teams log = log := by
  intro teams
  induction teams with
  | nil => intro log i _; rfl
  | cons t rest ih =>
    intro log i h
    obtain ⟨a, ids⟩ := t
    simp only [logFuel]
    rw [modifyIdx_of_length_le _ _ _ h]
    exact ih _ _ (Nat.le_succ_of_le h)

theorem logFuel_log {γ : Type} :
    ∀ (teams : List (AgentState γ × List Nat)) (pre rows : List TeamLog),
      logFuel pre.length teams (pre ++ rows) = pre ++ zipRows fuelRowD teams rows := by
  intro teams
  induction teams with
  | nil => intro pre rows; simp [logFuel, zipRows]
  | cons t rest ih =>
    intro pre rows
    obtain ⟨a, ids⟩ := t
    cases rows with
    | nil =>
      rw [logFuel_out _ _ _ (by simp)]
      simp [zipRows]
    | cons row rows1 =>
      simp only [logFuel]
      rw [modifyIdx_append_cons]
      have hlen : (pre ++ [fuelRowD (a, ids) row]).length = pre.length + 1 := by simp
      have := ih (pre ++ [fuelRowD (a, ids) row]) rows1
      rw [hlen] at this
      have hrow : ({ row with fuel := row.fuel ++ [Agent.fuel_level a] } : TeamLog) =
          fuelRowD (a, ids) row := rfl
      rw [hrow]
      simpa [zipRows] using this

theorem phaseA_snd {γ : Type} (g : GuestModule γ) (fl : Option Nat)
    (teams : List (AgentState γ × List Nat)) :
    (phaseA g fl teams).map Prod.snd = teams.map Prod.snd := by
  simp [phaseA, List.map_map]

theorem phaseA_entry {γ : Type} (g : GuestModule γ) (fl : Option Nat)
    (teams : List (AgentState γ × List Nat)) (i0 : Nat) (a : AgentState γ) (ids0 : List Nat)
    (h : teams[i0]? = some (a, ids0)) (ht : a.trapped = true) :
    (phaseA g fl teams)[i0]? = some (a, ids0) := by
  simp only [phaseA, List.getElem?_map, h, Option.map_some']
  rw [Agent.refuel_trapped ht, Agent.clear_world_state_trapped g ht]

theorem tick_eq {γ ε : Type} (E : EngineIface ε) (g : GuestModule γ) (st : GameState γ ε)
    (n : Nat) :
    Game.tick E g st n =
    (if 1 < (obsPart E g st).2.2.count true then
      ({ ticks := st.ticks + n, agent_fuel_limit := st.agent_fuel_limit,
         engine := E.tick (actPart E g st).2.2 n, teams := (actPart E g st).1,
         log := logFuel 0 (actPart E g st).1 (actPart E g st).2.1 },
       (obsPart E g st).2.2.count true)
    else
      ({ ticks := st.ticks, agent_fuel_limit := st.agent_fuel_limit,
         engine := (actPart E g st).2.2, teams := (actPart E g st).1,
         log := logFuel 0 (actPart E g st).1 (actPart E g st).2.1 },
       (obsPart E g st).2.2.count true)) := rfl

/-! ## Tick projections -/

theorem tick_teams {γ ε : Type} (E : EngineIface ε) (g : GuestModule γ) (st : GameState γ ε)
    (n : Nat) : (Game.tick E g st n).1.teams = (actPart E g st).1 := by
  rw [tick_eq]; split <;> rfl

theorem tick_log {γ ε : Type} (E : EngineIface ε) (g : GuestModule γ) (st : GameState γ ε)
    (n : Nat) :
    (Game.tick E g st n).1.log = logFuel 0 (actPart E g st).1 (actPart E g st).2.1 := by
  rw [tick_eq]; split <;> rfl

theorem tick_count {γ ε : Type} (E : EngineIface ε) (g : GuestModule γ) (st : GameState γ ε)
    (n : Nat) : (Game.tick E g st n).2 = (obsPart E g st).2.2.count true := by
  rw [tick_eq]; split <;> rfl

theorem tick_ticks_pos {γ ε : Type} (E : EngineIface ε) (g : GuestModule γ) (st : GameState γ ε)
    (n : Nat) (h : 1 < (obsPart E g st).2.2.count true) :
    (Game.tick E g st n).1.ticks = st.ticks + n := by
  rw [tick_eq, if_pos h]

theorem tick_ticks_le {γ ε : Type} (E : EngineIface ε) (g : GuestModule γ) (st : GameState γ ε)
    (n : Nat) (h : ¬ 1 < (obsPart E g st).2.2.count true) :
    (Game.tick E g st n).1.ticks = st.ticks := by
  rw [tick_eq, if_neg h]

theorem tick_engine_pos {γ ε : Type} (E : EngineIface ε) (g : GuestModule γ) (st : GameState γ ε)
    (n : Nat) (h : 1 < (obsPart E g st).2.2.count true) :
    (Game.tick E g st n).1.engine = E.tick (actPart E g st).2.2 n := by
  rw [tick_eq, if_pos h]

theorem tick_engine_le {γ ε : Type} (E : EngineIface ε) (g : GuestModule γ) (st : GameState γ ε)
    (n : Nat) (h : ¬ 1 < (obsPart E g st).2.2.count true) :
    (Game.tick E g st n).1.engine = (actPart E g st).2.2 := by
  rw [tick_eq, if_neg h]

theorem obsPart_teams_snd {γ ε : Type} (E : EngineIface ε) (g : GuestModule γ)
    (st : GameState γ ε) :
    (obsPart E g st).1.map Prod.snd = st.teams.map Prod.snd := by
  simp only [obsPart]
  rw [observeTeams_teams_snd, phaseA_snd]

theorem obsPart_log {γ ε : Type} (E : EngineIface ε) (g : GuestModule γ) (st : GameState γ ε) :
    (obsPart E g st).2.1 = zipRows (obsRowB E st.engine) (st.teams.map Prod.snd) st.log := by
  simp only [obsPart]
  rw [phaseA_snd]
  have h0 := observeTeams_log E g st.engine (st.teams.map Prod.snd)
    (phaseA g st.agent_fuel_limit st.teams) [] st.log []
  simpa using h0

theorem obsPart_alive {γ ε : Type} (E : EngineIface ε) (g : GuestModule γ) (st : GameState γ ε) :
    (obsPart E g st).2.2 =
    (st.teams.map Prod.snd).map (fun ids => teamAliveB E st.engine ids) := by
  simp only [obsPart]
  rw [observeTeams_alive, phaseA_snd]
  simp

theorem actPart_teams {γ ε : Type} (E : EngineIface ε) (g : GuestModule γ) (st : GameState γ ε) :
    (actPart E g st).1 =
    (obsPart E g st).1.map (fun t => (agentActs g st.ticks t.2 t.1, t.2)) := by
  simp only [actPart]
  exact actTeams_teams E g st.ticks _ _ _ _

theorem actPart_log {γ ε : Type} (E : EngineIface ε) (g : GuestModule γ) (st : GameState γ ε) :
    (actPart E g st).2.1 =
    zipRows (actRowC g st.ticks) (obsPart E g st).1 (obsPart E g st).2.1 := by
  simp only [actPart]
  have h0 := actTeams_log E g st.ticks (obsPart E g st).1 [] (obsPart E g st).2.1 st.engine
  simpa using h0

theorem actPart_engine {γ ε : Type} (E : EngineIface ε) (g : GuestModule γ) (st : GameState γ ε) :
    (actPart E g st).2.2 =
    applyCalls E st.engine (actTraceTeams g st.ticks (obsPart E g st).1) := by
  simp only [actPart]
  exact actTeams_engine E g st.ticks _ _ _ _

theorem tick_log_rows {γ ε : Type} (E : EngineIface ε) (g : GuestModule γ) (st : GameState γ ε)
    (n : Nat) :
    (Game.tick E g st n).1.log =
    zipRows fuelRowD (actPart E g st).1 (actPart E g st).2.1 := by
  rw [tick_log]
  have h0 := logFuel_log (actPart E g st).1 [] (actPart E g st).2.1
  simpa using h0

/-! ## Lookup lemmas for Phase C's per-team appends -/

theorem pushActs_lookup_notMem {γ : Type} (g : GuestModule γ) (tk k : Nat) :
    ∀ (ids : List Nat) (a : AgentState γ) (r : List (Nat × List (Option Int))), k ∉ ids →
      lookupKey k (pushActs g tk ids a r).2 = lookupKey k r := by
  intro ids
  induction ids with
  | nil => intro a r _; rfl
  | cons i rest ih =>
    intro a r h
    have h1 : k ≠ i := fun e => h (e ▸ List.mem_cons_self i rest)
    have h2 : k ∉ rest := fun e => h (List.mem_cons_of_mem i e)
    simp only [pushActs]
    rw [ih _ _ h2, lookupKey_modifyKey_ne i k _ h1]

theorem pushActs_lookup_mem {γ : Type} (g : GuestModule γ) (tk k : Nat) :
    ∀ (ids : List Nat) (a : AgentState γ) (r : List (Nat × List (Option Int))),
      nodupB ids = true → k ∈ ids →
      ∃ v, lookupKey k (pushActs g tk ids a r).2 = (lookupKey k r).map (fun l => l ++ [v]) ∧
        (a.trapped = true → v = none) := by
  intro ids
  induction ids with
  | nil => intro a r _ hm; cases hm
  | cons i rest ih =>
    intro a r hn hm
    obtain ⟨hni, hnr⟩ := nodupB_cons hn
    by_cases hk : k = i
    · subst hk
      refine ⟨(Agent.make_action g a k tk).2, ?_, ?_⟩
      · simp only [pushActs]
        rw [pushActs_lookup_notMem g tk k rest _ _ hni,
          lookupKey_modifyKey_self k _ r]
      · intro h
        rw [Agent.make_action_trapped g h]
    · have hmr : k ∈ rest := by
        cases List.mem_cons.mp hm with
        | inl h => exact absurd h hk
        | inr h => exact h
      obtain ⟨v, hv, himp⟩ := ih (Agent.make_action g a i tk).1
        (modifyKey i (fun l => l ++ [(Agent.make_action g a i tk).2]) r) hnr hmr
      refine ⟨v, ?_, ?_⟩
      · simp only [pushActs]
        rw [hv, lookupKey_modifyKey_ne i k _ hk]
      · intro h
        refine himp ?_
        rw [Agent.make_action_trapped g h]
        exact h

/-! ## Arity preservation through the phases -/

theorem rowArity_obsRowB {ε : Type} (E : EngineIface ε) (eng : ε) (ls lsh la lsc lf : Nat)
    (ids : List Nat) (tl : TeamLog) (hn : nodupB ids = true)
    (h : rowArityAt ls lsh la lsc lf ids tl = true) :
    rowArityAt (ls + 1) (lsh + 1) la (lsc + 1) lf ids (obsRowB E eng ids tl) = true := by
  simp only [rowArityAt, Bool.and_eq_true, List.all_eq_true, beq_iff_eq] at h ⊢
  obtain ⟨⟨hsc, hf⟩, hall⟩ := h
  refine ⟨⟨by simp [obsRowB, hsc], by simp [obsRowB, hf]⟩, ?_⟩
  intro agent_id hid
  obtain ⟨⟨hs, hsh⟩, ha⟩ := hall agent_id hid
  refine ⟨⟨?_, ?_⟩, ?_⟩
  · cases hls : lookupKey agent_id tl.ships with
    | none => rw [hls] at hs; simp at hs
    | some sh =>
      rw [hls] at hs
      simp only at hs
      have : lookupKey agent_id (obsRowB E eng ids tl).ships =
          some (shipPush E eng agent_id sh) := by
        simp only [obsRowB]
        rw [lookupKey_foldModify_mem _ _ ids _ hn hid, hls]
        rfl
      rw [this]
      simp only [shipLensOK, Bool.and_eq_true, beq_iff_eq] at hs ⊢
      obtain ⟨⟨⟨hx, hy⟩, hh⟩, hal⟩ := hs
      simp [shipPush, pushShipEntry, hx, hy, hh, hal]
  · cases hls : lookupKey agent_id tl.shots with
    | none => rw [hls] at hsh; simp at hsh
    | some sh =>
      rw [hls] at hsh
      simp only at hsh
      have : lookupKey agent_id (obsRowB E eng ids tl).shots =
          some (shotPush E eng agent_id sh) := by
        simp only [obsRowB]
        rw [lookupKey_foldModify_mem _ _ ids _ hn hid, hls]
        rfl
      rw [this]
      simp only [shotLensOK, Bool.and_eq_true, beq_iff_eq] at hsh ⊢
      obtain ⟨⟨hx, hy⟩, hl⟩ := hsh
      simp [shotPush, pushShotEntry, hx, hy, hl]
  · have : lookupKey agent_id (obsRowB E eng ids tl).actions =
        lookupKey agent_id tl.actions := by
      simp [obsRowB]
    rw [this]
    exact ha

theorem rowArity_actRowC {γ : Type} (g : GuestModule γ) (tk : Nat) (ls lsh la lsc lf : Nat)
    (a : AgentState γ) (ids : List Nat) (tl : TeamLog) (hn : nodupB ids = true)
    (h : rowArityAt ls lsh la lsc lf ids tl = true) :
    rowArityAt ls lsh (la + 1) lsc lf ids (actRowC g tk (a, ids) tl) = true := by
  simp only [rowArityAt, Bool.and_eq_true, List.all_eq_true, beq_iff_eq] at h ⊢
  obtain ⟨⟨hsc, hf⟩, hall⟩ := h
  refine ⟨⟨by simp [actRowC, hsc], by simp [actRowC, hf]⟩, ?_⟩
  intro agent_id hid
  obtain ⟨⟨hs, hsh⟩, ha⟩ := hall agent_id hid
  refine ⟨⟨by simpa [actRowC] using hs, by simpa [actRowC] using hsh⟩, ?_⟩
  obtain ⟨v, hv, _⟩ := pushActs_lookup_mem g tk agent_id ids a tl.actions hn hid
  cases hla : lookupKey agent_id tl.actions with
  | none => rw [hla] at ha; simp at ha
  | some l =>
    rw [hla] at ha
    simp only at ha
    have : lookupKey agent_id (actRowC g tk (a, ids) tl).actions = some (l ++ [v]) := by
      simp only [actRowC]
      rw [hv, hla]
      rfl
    rw [this]
    simp [ha]

theorem rowArity_fuelRowD {γ : Type} (t0 : AgentState γ × List Nat) (ls lsh la lsc lf : Nat)
    (ids : List Nat) (tl : TeamLog)
    (h : rowArityAt ls lsh la lsc lf ids tl = true) :
    rowArityAt ls lsh la lsc (lf + 1) ids (fuelRowD t0 tl) = true := by
  simp only [rowArityAt, Bool.and_eq_true, List.all_eq_true, beq_iff_eq] at h ⊢
  obtain ⟨⟨hsc, hf⟩, hall⟩ := h
  refine ⟨⟨by simp [fuelRowD, hsc], by simp [fuelRowD, hf]⟩, ?_⟩
  intro agent_id hid
  obtain ⟨⟨hs, hsh⟩, ha⟩ := hall agent_id hid
  exact ⟨⟨by simpa [fuelRowD] using hs, by simpa [fuelRowD] using hsh⟩,
    by simpa [fuelRowD] using ha⟩

theorem arityRows_phases {γ ε : Type} (E : EngineIface ε) (eng : ε) (g : GuestModule γ)
    (tk : Nat) (F : AgentState γ × List Nat → AgentState γ × List Nat) :
    ∀ (ts : List (AgentState γ × List Nat)) (rows : List TeamLog) (L : Nat),
      (ts.map Prod.snd).all nodupB = true →
      arityRowsAt L L L L L (ts.map Prod.snd) rows = true →
      arityRowsAt (L + 1) (L + 1) (L + 1) (L + 1) (L + 1) (ts.map Prod.snd)
        (zipRows fuelRowD (ts.map F)
          (zipRows (actRowC g tk) ts
            (zipRows (obsRowB E eng) (ts.map Prod.snd) rows))) = true := by
  intro ts
  induction ts with
  | nil =>
    intro rows L _ h
    cases rows with
    | nil => rfl
    | cons row rows1 => simp [arityRowsAt] at h
  | cons t ts ih =>
    intro rows L hn h
    cases rows with
    | nil =>
      obtain ⟨a, ids⟩ := t
      simp [arityRowsAt] at h
    | cons row rows1 =>
      obtain ⟨a, ids⟩ := t
      simp only [List.map_cons, List.all_cons, Bool.and_eq_true] at hn
      simp only [List.map_cons, arityRowsAt, Bool.and_eq_true] at h
      obtain ⟨h1, h2⟩ := h
      simp only [List.map_cons, zipRows, arityRowsAt, Bool.and_eq_true]
      constructor
      · have hb := rowArity_obsRowB E eng L L L L L ids row hn.1 h1
        have hc := rowArity_actRowC g tk (L + 1) (L + 1) L (L + 1) L a ids _ hn.1 hb
        exact rowArity_fuelRowD (F (a, ids)) (L + 1) (L + 1) (L + 1) (L + 1) L ids _ hc
      · exact ih rows1 L hn.2 h2

theorem tick_arity {γ ε : Type} (E : EngineIface ε) (g : GuestModule γ) (st : GameState γ ε)
    (n L : Nat) (hw : teamsWF st = true) (ha : arityOK st L = true) :
    arityOK (Game.tick E g st n).1 (L + 1) = true ∧
    (Game.tick E g st n).1.teams.map Prod.snd = st.teams.map Prod.snd := by
  have hsnd : (Game.tick E g st n).1.teams.map Prod.snd = st.teams.map Prod.snd := by
    rw [tick_teams, actPart_teams, List.map_map]
    have : (Prod.snd ∘ fun t : AgentState γ × List Nat =>
        (agentActs g st.ticks t.2 t.1, t.2)) = Prod.snd := by
      funext t; rfl
    rw [this, obsPart_teams_snd]
  refine ⟨?_, hsnd⟩
  rw [arityOK, hsnd, tick_log_rows, actPart_log, actPart_teams, obsPart_log]
  rw [← obsPart_teams_snd E g st]
  exact arityRows_phases E st.engine g st.ticks
    (fun t => (agentActs g st.ticks t.2 t.1, t.2)) (obsPart E g st).1 st.log L
    (by rw [obsPart_teams_snd]; exact hw)
    (by rw [obsPart_teams_snd]; exact ha)

/-! ## Alive-team counting and engine-call traces -/

theorem count_true_map {α : Type} (p : α → Bool) :
    ∀ (l : List α), (l.map p).count true = (l.filter p).length := by
  intro l
  induction l with
  | nil => rfl
  | cons x xs ih =>
    cases hp : p x <;> simp [List.count_cons, List.filter_cons, hp, ih]

theorem specAliveTeams_eq {γ ε : Type} (E : EngineIface ε) (g : GuestModule γ)
    (st : GameState γ ε) :
    (obsPart E g st).2.2.count true = specAliveTeams E st := by
  rw [obsPart_alive, List.map_map, count_true_map]
  rfl

theorem tickCallsOf_append (a b : List EngCall) :
    tickCallsOf (a ++ b) = tickCallsOf a ++ tickCallsOf b := by
  simp [tickCallsOf, List.filterMap_append]

theorem tickCallsOf_actTrace {γ : Type} (g : GuestModule γ) (tk : Nat) :
    ∀ (ids : List Nat) (a : AgentState γ), tickCallsOf (actTrace g tk ids a) = [] := by
  intro ids
  induction ids with
  | nil => intro a; rfl
  | cons i rest ih =>
    intro a
    simp only [actTrace]
    simp [tickCallsOf, List.filterMap_cons] at ih ⊢
    exact ih _

theorem tickCallsOf_actTraceTeams {γ : Type} (g : GuestModule γ) (tk : Nat) :
    ∀ (teams : List (AgentState γ × List Nat)),
      tickCallsOf (actTraceTeams g tk teams) = [] := by
  intro teams
  induction teams with
  | nil => rfl
  | cons t rest ih =>
    obtain ⟨a, ids⟩ := t
    simp only [actTraceTeams]
    rw [tickCallsOf_append, tickCallsOf_actTrace, ih]
    rfl

theorem actTraceTeams_mem {γ : Type} (g : GuestModule γ) (tk : Nat) :
    ∀ (teams : List (AgentState γ × List Nat)) (k : Nat) (a : AgentState γ) (ids : List Nat),
      teams[k]? = some (a, ids) → a.trapped = true →
      ∀ agent_id ∈ ids, EngCall.setAction agent_id 0 ∈ actTraceTeams g tk teams := by
  intro teams
  induction teams with
  | nil => intro k a ids h _ agent_id _; simp at h
  | cons t rest ih =>
    intro k a ids h ht agent_id hid
    obtain ⟨a0, ids0⟩ := t
    cases k with
    | zero =>
      simp only [List.getElem?_cons_zero, Option.some.injEq, Prod.mk.injEq] at h
      obtain ⟨ha, hi⟩ := h
      subst ha
      subst hi
      simp only [actTraceTeams]
      rw [actTrace_trapped g tk _ ht]
      exact List.mem_append_left _ (List.mem_map_of_mem _ hid)
    | succ m =>
      simp only [List.getElem?_cons_succ] at h
      exact List.mem_append_right _ (ih m a ids h ht agent_id hid)

/-! ## Claim theorems: the match runtime -/

/-- C1 (corrected): in Phase C of `Game.tick`, `make_action(id, tick_counter)`
is consulted for every id, and the engine receives the substituted
`action or 0` via `set_action` — but the action log records the raw returned
value, not the substituted one.  For a team whose agent is trapped at tick
entry, the agent is not re-entered and stays trapped, every one of its
logged action entries for this tick is `none` (JSON `null`), and the engine
receives `0` for each of its ids. -/
theorem c1_amended {σ γ : Type} (e : EngineIface σ) (g : GuestModule γ)
    (st : GameState γ (σ × List EngCall)) (i : Nat) (a : AgentState γ) (ids : List Nat)
    (n : Nat) (h1 : st.teams[i]? = some (a, ids)) (h2 : a.trapped = true)
    (h3 : nodupB ids = true) :
    (Game.tick (traceEngine e) g st n).1.teams[i]? = some (a, ids) ∧
    (∀ agent_id ∈ ids, actionsAt (Game.tick (traceEngine e) g st n).1.log i agent_id =
      (actionsAt st.log i agent_id).map (fun l => l ++ [none])) ∧
    (∀ agent_id ∈ ids,
      EngCall.setAction agent_id 0 ∈ (Game.tick (traceEngine e) g st n).1.engine.2) := by
  have hA : (phaseA g st.agent_fuel_limit st.teams)[i]? = some (a, ids) :=
    phaseA_entry g _ st.teams i a ids h1 h2
  have hB : (obsPart (traceEngine e) g st).1[i]? = some (a, ids) := by
    simp only [obsPart]
    exact observeTeams_teams_entry (traceEngine e) g st.engine _ _ _ _ _ _ a ids hA h2
  have hC : (actPart (traceEngine e) g st).1[i]? = some (a, ids) := by
    rw [actPart_teams]
    simp only [List.getElem?_map, hB, Option.map_some']
    rw [agentActs_trapped g st.ticks ids h2]
  have hteams : (Game.tick (traceEngine e) g st n).1.teams[i]? = some (a, ids) := by
    rw [tick_teams]; exact hC
  have hidss : (st.teams.map Prod.snd)[i]? = some ids := by
    simp [List.getElem?_map, h1]
  refine ⟨hteams, ?_, ?_⟩
  · intro agent_id hid
    rw [tick_log_rows, actPart_log, obsPart_log]
    simp only [actionsAt]
    rw [zipRows_getElem?_of_some fuelRowD _ _ i _ hC,
      zipRows_getElem?_of_some (actRowC g st.ticks) _ _ i _ hB,
      zipRows_getElem?_of_some (obsRowB (traceEngine e) st.engine) _ _ i _ hidss]
    cases hrow : st.log[i]? with
    | none => simp
    | some tl =>
      simp only [Option.map_some', Option.some_bind]
      have e1 : (fuelRowD (a, ids)
          (actRowC g st.ticks (a, ids) (obsRowB (traceEngine e) st.engine ids tl))).actions =
          (pushActs g st.ticks ids a
            (obsRowB (traceEngine e) st.engine ids tl).actions).2 := rfl
      rw [e1, pushActs_trapped g st.ticks ids _ h2]
      have e2 : (obsRowB (traceEngine e) st.engine ids tl).actions = tl.actions := rfl
      rw [e2, lookupKey_foldModify_mem (fun _ l => l ++ [none]) agent_id ids _ h3 hid]
  · intro agent_id hid
    have hact : EngCall.setAction agent_id 0 ∈
        actTraceTeams g st.ticks (obsPart (traceEngine e) g st).1 :=
      actTraceTeams_mem g st.ticks _ i a ids hB h2 agent_id hid
    have heng : (actPart (traceEngine e) g st).2.2.2 =
        st.engine.2 ++ actTraceTeams g st.ticks (obsPart (traceEngine e) g st).1 := by
      rw [actPart_engine]
      exact applyCalls_traceEngine e _ st.engine
    by_cases hcond : 1 < (obsPart (traceEngine e) g st).2.2.count true
    · rw [tick_engine_pos _ g st n hcond]
      have hT : ((traceEngine e).tick (actPart (traceEngine e) g st).2.2 n).2 =
          (actPart (traceEngine e) g st).2.2.2 ++ [EngCall.tickCall n] := rfl
      rw [hT, heng]
      simp [hact]
    · rw [tick_engine_le _ g st n hcond, heng]
      simp [hact]

/-- C1 counterexample: in a single-team match whose agent trapped during
construction, the first tick's logged action entry is `none` (Python
`None`), not `0` as the claim states; the claim's "every logged action
entry for ids in that team equals 0" is false on the code. -/
theorem c1_counterexample :
    actionsAt (Game.tick cEngine trapGuest trapGame 1).1.log 0 0 = some [none] ∧
    actionsAt (Game.tick cEngine trapGuest trapGame 1).1.log 0 0 ≠ some [some 0] ∧
    (trapGame.teams.map fun t => t.1.trapped) = [true] := by
  refine ⟨by decide, by decide, by decide⟩

/-- C1 witness: the amended theorem applied to the concrete trapped
single-team match. -/
theorem c1_witness :
    (Game.tick (traceEngine cEngine) trapGuest trapGameTr 1).1.teams[0]? =
      some (aTrapped, [0]) ∧
    actionsAt (Game.tick (traceEngine cEngine) trapGuest trapGameTr 1).1.log 0 0 =
      (actionsAt trapGameTr.log 0 0).map (fun l => l ++ [none]) ∧
    EngCall.setAction 0 0 ∈
      (Game.tick (traceEngine cEngine) trapGuest trapGameTr 1).1.engine.2 := by
  have h := c1_amended cEngine trapGuest trapGameTr 0 aTrapped [0] 1 (by decide) (by decide)
    (by decide)
  exact ⟨h.1, h.2.1 0 (by decide), h.2.2 0 (by decide)⟩

/-- C2 (amended): after every call to `Game.tick`, the nine per-team and
per-id log series all have equal length, one more than before the call, and
the teams' id lists are unchanged; the length equals the `ticks` field only
while every tick so far advanced the engine (the counterexample shows a
terminal tick grows the arrays without advancing `ticks`). -/
theorem c2_amended {γ ε : Type} (E : EngineIface ε) (g : GuestModule γ)
    (st : GameState γ ε) (n L : Nat) (hw : teamsWF st = true) (ha : arityOK st L = true) :
    arityOK (Game.tick E g st n).1 (L + 1) = true ∧
    (Game.tick E g st n).1.teams.map Prod.snd = st.teams.map Prod.snd :=
  tick_arity E g st n L hw ha

/-- C2 counterexample: the single-team match of the spec's own scenario.
After one `Game.tick` call every log array has length 1, but the tick
counter is still 0 (the engine was not advanced), so the claimed equality
`len(...) == current_tick` is false on the code. -/
theorem c2_counterexample :
    arityOK (Game.tick cEngine okGuest oneTeamGame 1).1 1 = true ∧
    (Game.tick cEngine okGuest oneTeamGame 1).1.ticks = 0 ∧
    arityOK (Game.tick cEngine okGuest oneTeamGame 1).1
      ((Game.tick cEngine okGuest oneTeamGame 1).1.ticks) = false := by
  refine ⟨by decide, by decide, by decide⟩

/-- C2 witness: the amended theorem applied to the concrete single-team
match at length 0. -/
theorem c2_witness :
    teamsWF oneTeamGame = true ∧ arityOK oneTeamGame 0 = true ∧
    (arityOK (Game.tick cEngine okGuest oneTeamGame 1).1 1 = true ∧
      (Game.tick cEngine okGuest oneTeamGame 1).1.teams.map Prod.snd =
        oneTeamGame.teams.map Prod.snd) :=
  ⟨by decide, by decide, c2_amended cEngine okGuest oneTeamGame 1 0 (by decide) (by decide)⟩

/-- C5 (confirmed): `Game.tick` returns the number of teams observed with at
least one alive ship this tick; when that count exceeds 1 it calls
`engine.tick(n_times)` exactly once and adds `n_times` to the tick counter,
and when it is at most 1 it makes no `engine.tick` call and leaves the tick
counter unchanged, while the tick's observations are still recorded (every
log series still grows by one). -/
theorem c5_confirmed {σ γ : Type} (e : EngineIface σ) (g : GuestModule γ)
    (st : GameState γ (σ × List EngCall)) (n L : Nat) :
    (Game.tick (traceEngine e) g st n).2 = specAliveTeams (traceEngine e) st ∧
    (1 < specAliveTeams (traceEngine e) st →
      (Game.tick (traceEngine e) g st n).1.ticks = st.ticks + n ∧
      tickCallsOf (Game.tick (traceEngine e) g st n).1.engine.2 =
        tickCallsOf st.engine.2 ++ [n]) ∧
    (specAliveTeams (traceEngine e) st ≤ 1 →
      (Game.tick (traceEngine e) g st n).1.ticks = st.ticks ∧
      tickCallsOf (Game.tick (traceEngine e) g st n).1.engine.2 =
        tickCallsOf st.engine.2) ∧
    (teamsWF st = true → arityOK st L = true →
      arityOK (Game.tick (traceEngine e) g st n).1 (L + 1) = true) := by
  have hcnt := specAliveTeams_eq (traceEngine e) g st
  have heng : (actPart (traceEngine e) g st).2.2.2 =
      st.engine.2 ++ actTraceTeams g st.ticks (obsPart (traceEngine e) g st).1 := by
    rw [actPart_engine]
    exact applyCalls_traceEngine e _ st.engine
  refine ⟨by rw [tick_count, hcnt], ?_, ?_, ?_⟩
  · intro h
    have hcond : 1 < (obsPart (traceEngine e) g st).2.2.count true := by rw [hcnt]; exact h
    refine ⟨tick_ticks_pos _ g st n hcond, ?_⟩
    rw [tick_engine_pos _ g st n hcond]
    have hT : ((traceEngine e).tick (actPart (traceEngine e) g st).2.2 n).2 =
        (actPart (traceEngine e) g st).2.2.2 ++ [EngCall.tickCall n] := rfl
    rw [hT, heng, tickCallsOf_append, tickCallsOf_append, tickCallsOf_actTraceTeams]
    simp [tickCallsOf]
  · intro h
    have hcond : ¬ 1 < (obsPart (traceEngine e) g st).2.2.count true := by
      rw [hcnt]; omega
    refine ⟨tick_ticks_le _ g st n hcond, ?_⟩
    rw [tick_engine_le _ g st n hcond, heng, tickCallsOf_append, tickCallsOf_actTraceTeams]
    simp
  · intro hw ha
    exact (tick_arity (traceEngine e) g st n L hw ha).1

/-- C5 witness: the spec's single-team scenario — `teams_alive` is 1 on the
first tick, the engine is not advanced, `ticks` stays 0, and the log arrays
reach length 1. -/
theorem c5_witness :
    specAliveTeams (traceEngine cEngine) oneTeamGameTr ≤ 1 ∧
    (Game.tick (traceEngine cEngine) okGuest oneTeamGameTr 1).1.ticks =
      oneTeamGameTr.ticks ∧
    tickCallsOf (Game.tick (traceEngine cEngine) okGuest oneTeamGameTr 1).1.engine.2 =
      tickCallsOf oneTeamGameTr.engine.2 ∧
    arityOK (Game.tick (traceEngine cEngine) okGuest oneTeamGameTr 1).1 1 = true := by
  have h := c5_confirmed cEngine okGuest oneTeamGameTr 1 0
  exact ⟨by decide, (h.2.2.1 (by decide)).1, (h.2.2.1 (by decide)).2,
    h.2.2.2 (by decide) (by decide)⟩

/-! ## Claim theorems: agent binding, construction determinism, supervisor -/

/-- C4 (confirmed): the trapped flag is sticky.  Any exception raised by an
export call — including `init_agent` and the config pushes during
construction — sets it; once set, every guarded call returns the agent
unchanged (so the guest is not re-entered and the flag is never reset),
`make_action` returns the sentinel `none`, and `refuel` does not set fuel
on a trapped agent. -/
theorem c4_confirmed {γ : Type} (g : GuestModule γ) (a : AgentState γ) (agent_id ticks : Nat)
    (is_alive : Bool) (pose : Pose) (lifetime score : Int) (lvl fl : Option Nat)
    (m : γ) (nt mult seed : Nat) (cfg : Config) :
    (a.trapped = true →
      Agent.clear_world_state g a = a ∧
      Agent.update_ship g a agent_id is_alive pose = a ∧
      Agent.update_shot g a agent_id lifetime pose = a ∧
      Agent.update_score g a agent_id score = a ∧
      Agent.make_action g a agent_id ticks = (a, none) ∧
      Agent.refuel a lvl = a) ∧
    (g.clear_world_state a.module a.ctx = none →
      (Agent.clear_world_state g a).trapped = true) ∧
    (g.update_ship a.module a.ctx agent_id (if is_alive then 1 else 0) pose.x pose.y
        pose.heading = none →
      (Agent.update_ship g a agent_id is_alive pose).trapped = true) ∧
    (g.update_shot a.module a.ctx agent_id lifetime pose.x pose.y pose.heading = none →
      (Agent.update_shot g a agent_id lifetime pose).trapped = true) ∧
    (g.update_score a.module a.ctx agent_id score = none →
      (Agent.update_score g a agent_id score).trapped = true) ∧
    (g.make_action a.module a.ctx agent_id ticks = none →
      (Agent.make_action g a agent_id ticks).1.trapped = true) ∧
    (g.init_agent m nt mult seed = none →
      (Agent.init g m nt mult seed cfg fl).trapped = true) ∧
    ((Agent.init g m nt mult seed cfg fl).trapped = false →
      ∃ m1 ctx, g.init_agent m nt mult seed = some (m1, ctx) ∧
        (Agent.pushConfig g ctx m1 (Agent.cfgParams cfg)).2 = false) := by
  refine ⟨?_, ?_, ?_, ?_, ?_, ?_, ?_, ?_⟩
  · intro ht
    exact ⟨Agent.clear_world_state_trapped g ht, Agent.update_ship_trapped g ht _ _ _,
      Agent.update_shot_trapped g ht _ _ _, Agent.update_score_trapped g ht _ _,
      Agent.make_action_trapped g ht _ _, Agent.refuel_trapped ht _⟩
  · intro hg
    cases hb : a.trapped
    · simp [Agent.clear_world_state, hb, hg]
    · simp [Agent.clear_world_state, hb]
  · intro hg
    cases hb : a.trapped
    · simp [Agent.update_ship, hb, hg]
    · simp [Agent.update_ship, hb]
  · intro hg
    cases hb : a.trapped
    · simp [Agent.update_shot, hb, hg]
    · simp [Agent.update_shot, hb]
  · intro hg
    cases hb : a.trapped
    · simp [Agent.update_score, hb, hg]
    · simp [Agent.update_score, hb]
  · intro hg
    cases hb : a.trapped
    · simp [Agent.make_action, hb, hg]
    · simp [Agent.make_action, hb]
  · intro hg
    simp [Agent.init, hg]
  · intro h
    cases hi : g.init_agent m nt mult seed with
    | none => rw [Agent.init] at h; simp [hi] at h
    | some pr =>
      obtain ⟨m1, ctx⟩ := pr
      refine ⟨m1, ctx, rfl, ?_⟩
      rw [Agent.init] at h
      simpa [hi] using h

/-- C4 witness: the sticky flag on the concretely trapped agent. -/
theorem c4_witness :
    aTrapped.trapped = true ∧
    Agent.clear_world_state trapGuest aTrapped = aTrapped ∧
    Agent.make_action trapGuest aTrapped 0 0 = (aTrapped, none) ∧
    Agent.refuel aTrapped (some 5) = aTrapped ∧
    (Agent.init trapGuest () 1 1 1 cfg0 none).trapped = true := by
  have h := c4_confirmed trapGuest aTrapped 0 0 true { x := 0, y := 0, heading := 0 } 0 0
    (some 5) none () 1 1 1 cfg0
  exact ⟨by decide, (h.1 (by decide)).1, (h.1 (by decide)).2.2.2.2.1,
    (h.1 (by decide)).2.2.2.2.2, h.2.2.2.2.2.2.1 (by decide)⟩

theorem buildAgents_eq {γ ρ : Type} (R : RngOps ρ) (g : GuestModule γ) (cfg : Config)
    (nt mult : Nat) (fl : Option Nat) :
    ∀ (gs : List γ) (r : ρ),
      Game.buildAgents R g cfg nt mult fl gs r =
      (List.zipWith (fun m0 s => Agent.init g m0 nt mult s cfg fl) gs
        (drawSeeds R gs.length r).1, (drawSeeds R gs.length r).2) := by
  intro gs
  induction gs with
  | nil => intro r; rfl
  | cons m0 rest ih =>
    intro r
    simp [Game.buildAgents, drawSeeds, ih]

/-- C6 (confirmed): for a fixed input tuple — engine state, guest modules,
generator model, seed, config, multiplicity, optional poses, fuel limit —
two runs of `Game.__init__` produce identical game states (the embedding
threads every random draw through the one generator seeded with the given
seed), and the per-agent seeds are exactly the successive
`randint(1, 2^32)` draws of that generator, consumed in team order. -/
theorem c6_confirmed {ε γ ρ : Type} (E : EngineIface ε) (g : GuestModule γ) (R : RngOps ρ)
    (e0 : ε) (cfg : Config) (gs gs' : List γ) (m m' : Nat)
    (ip ip' : Option (List Pose)) (seed seed' : Option Int) (fl fl' : Option Nat)
    (h1 : gs = gs') (h2 : m = m') (h3 : ip = ip') (h4 : seed = seed') (h5 : fl = fl') :
    Game.mkGame E g R e0 cfg gs m ip seed fl = Game.mkGame E g R e0 cfg gs' m' ip' seed' fl' ∧
    (Game.buildAgents R g cfg (gs.length * m) m (fl.map fun f => 100 * f) gs
        (R.init seed)).1 =
      List.zipWith
        (fun m0 s => Agent.init g m0 (gs.length * m) m s cfg (fl.map fun f => 100 * f))
        gs (drawSeeds R gs.length (R.init seed)).1 := by
  subst h1; subst h2; subst h3; subst h4; subst h5
  exact ⟨rfl, by rw [buildAgents_eq]⟩

/-- C6 witness: determinism and the seed-derivation order at a concrete
single-team construction. -/
theorem c6_witness :
    Game.mkGame cEngine okGuest cRng 0 cfg0 [()] 1 none (some 1) none =
      Game.mkGame cEngine okGuest cRng 0 cfg0 [()] 1 none (some 1) none ∧
    (Game.buildAgents cRng okGuest cfg0 ([()].length * 1) 1
        ((none : Option Nat).map fun f => 100 * f) [()] (cRng.init (some 1))).1 =
      List.zipWith
        (fun m0 s => Agent.init okGuest m0 ([()].length * 1) 1 s cfg0
          ((none : Option Nat).map fun f => 100 * f))
        [()] (drawSeeds cRng [()].length (cRng.init (some 1))).1 :=
  c6_confirmed cEngine okGuest cRng 0 cfg0 [()] [()] 1 1 none none (some 1) (some 1)
    none none rfl rfl rfl rfl rfl

/-- C3 (confirmed): the supervisor main loop submits `_run_game` with a
keyword set containing `agent_fuel_limit`, which `_run_game` does not
accept, so Python keyword binding raises `TypeError` in the worker; and the
main loop's handler saves no log for a future that raised — so no
supervisor-run match applies a fuel limit and no log is ever saved. -/
theorem c3_confirmed :
    ("agent_fuel_limit" ∈ mainSubmitKwargs) ∧
    ("agent_fuel_limit" ∉ runGameParams) ∧
    kwargsBindError runGameParams mainSubmitKwargs = true ∧
    (∀ (st : LoggerSt) (msgs : List String),
      (msgs.map Except.error).foldl handleDone st = st) := by
  refine ⟨by decide, by decide, by decide, ?_⟩
  intro st msgs
  induction msgs generalizing st with
  | nil => rfl
  | cons msg rest ih =>
    simp only [List.map_cons, List.foldl_cons]
    rw [show handleDone st (Except.error msg) = st from rfl]
    exact ih st

/-- C7 (code_bug): with `--fuel_limit` omitted the supervisor's validation
evaluates `None < 100`, which raises an unhandled `TypeError` instead of
accepting the flag as "fuel metering disabled"; given integer values, the
documented lower bounds are enforced via `parser.error` (non-zero exit). -/
theorem c7_code_bug :
    validateServerFlags 1 1 none 1000 = CliOutcome.pyTypeError ∧
    validateServerFlags 1 1 (some 1000) 1000 = CliOutcome.proceed ∧
    validateServerFlags 1 1 (some 50) 1000 = CliOutcome.usageExit ∧
    validateServerFlags 0 1 (some 1000) 1000 = CliOutcome.usageExit ∧
    validateServerFlags 1 0 (some 1000) 1000 = CliOutcome.usageExit ∧
    validateServerFlags 1 1 (some 1000) 0 = CliOutcome.usageExit := by
  refine ⟨by decide, by decide, by decide, by decide, by decide, by decide⟩

/-- C8 (code_bug): the scenario validator's required-keys table omits
`max_rounds`, so an element missing it passes validation and the subsequent
`scenario["max_rounds"]` access raises `KeyError` — rather than the claimed
validation error naming the missing property; unknown keys are ignored. -/
theorem c8_code_bug :
    validateScen scenEx = Except.ok () ∧
    readScenElem scenEx = Except.error (PyErr.keyError "max_rounds") ∧
    ("max_rounds" ∉ scenKeys.map Prod.fst) ∧
    validateScen (scenEx ++ [("unknown_key", JVal.jint 1)]) = Except.ok () := by
  refine ⟨rfl, rfl, by decide, rfl⟩

/-! ## Decimal digits: `str(n)` matches `(\d+)` and round-trips -/

theorem digitChar_val (d : Nat) (h : d < 10) : (digitChar d).toNat - 48 = d := by
  interval_cases d <;> rfl

theorem isDigitC_digitChar (d : Nat) (h : d < 10) : isDigitC (digitChar d) = true := by
  interval_cases d <;> rfl

theorem natDigits_all (n : Nat) : (natDigits n).all isDigitC = true := by
  induction n using Nat.strong_induction_on with
  | _ n ih =>
    rw [natDigits]
    split
    · next h => simp [isDigitC_digitChar n h]
    · next h =>
      rw [List.all_append]
      have h1 := ih (n / 10) (Nat.div_lt_self (by omega) (by omega))
      simp [h1, isDigitC_digitChar (n % 10) (Nat.mod_lt _ (by omega))]

theorem natDigits_ne_nil (n : Nat) : natDigits n ≠ [] := by
  rw [natDigits]
  split <;> simp

theorem digitsVal_append (cs : List Char) (c : Char) :
    digitsVal (cs ++ [c]) = digitsVal cs * 10 + (c.toNat - 48) := by
  simp [digitsVal, List.foldl_append]

theorem digitsVal_natDigits (n : Nat) : digitsVal (natDigits n) = n := by
  induction n using Nat.strong_induction_on with
  | _ n ih =>
    rw [natDigits]
    split
    · next h => simp [digitsVal, digitChar_val n h]
    · next h =>
      rw [digitsVal_append, ih (n / 10) (Nat.div_lt_self (by omega) (by omega)),
        digitChar_val (n % 10) (Nat.mod_lt _ (by omega))]
      omega

theorem dropFront_append : ∀ (p cs : List Char), dropFront p (p ++ cs) = some cs := by
  intro p
  induction p with
  | nil => intro cs; rfl
  | cons c ps ih => intro cs; simp [dropFront, ih]

theorem dropBack_append (suf cs : List Char) : dropBack suf (cs ++ suf) = some cs := by
  simp [dropBack, List.reverse_append, dropFront_append]

theorem parseDigits_natDigits (n : Nat) : parseDigits (natDigits n) = some n := by
  simp [parseDigits, natDigits_ne_nil n, natDigits_all n, digitsVal_natDigits n]

theorem toList_mk (L : List Char) : (String.mk L).toList = L := rfl

theorem parseLogName_mkLogName (i : Nat) : parseLogName (mkLogName i) = some i := by
  have hstr : mkLogName i =
      String.mk ("scubywasm-log_".toList ++ (natDigits i ++ ".json".toList)) := by
    apply String.ext
    show ("scubywasm-log_" ++ String.mk (natDigits i) ++ ".json").data = _
    rw [String.data_append, String.data_append]
    rfl
  rw [hstr]
  simp only [parseLogName, toList_mk, dropFront_append, dropBack_append,
    parseDigits_natDigits]

/-! ## Fold-max facts for `Logger.__init__` -/

theorem le_foldl_max : ∀ (vs : List Nat) (v : Nat), v ≤ vs.foldl max v := by
  intro vs
  induction vs with
  | nil => intro v; exact Nat.le_refl v
  | cons z vs ih =>
    intro v
    exact Nat.le_trans (Nat.le_max_left v z) (ih (max v z))

theorem mem_le_foldl_max : ∀ (vs : List Nat) (v w : Nat), w ∈ vs → w ≤ vs.foldl max v := by
  intro vs
  induction vs with
  | nil => intro v w h; cases h
  | cons z vs ih =>
    intro v w h
    cases List.mem_cons.mp h with
    | inl he =>
      rw [he]
      exact Nat.le_trans (Nat.le_max_right v z) (le_foldl_max vs (max v z))
    | inr hm => exact ih (max v z) w hm

theorem foldl_max_mem : ∀ (vs : List Nat) (v : Nat),
    vs.foldl max v = v ∨ vs.foldl max v ∈ vs := by
  intro vs
  induction vs with
  | nil => intro v; exact Or.inl rfl
  | cons z vs ih =>
    intro v
    rw [List.foldl_cons]
    cases ih (max v z) with
    | inl he =>
      rw [he]
      cases max_choice v z with
      | inl h => exact Or.inl h
      | inr h => exact Or.inr (by rw [h]; exact List.mem_cons_self z vs)
    | inr hm => exact Or.inr (List.mem_cons_of_mem z hm)

theorem saveLogs_spec : ∀ (K : Nat) (st : LoggerSt),
    (saveLogs K st).files = st.files ++ (List.range K).map (fun j => mkLogName (st.idx + j)) ∧
    (saveLogs K st).idx = st.idx + K := by
  intro K
  induction K with
  | zero => intro st; simp [saveLogs]
  | succ K ih =>
    intro st
    obtain ⟨hf, hi⟩ := ih (saveLog st)
    constructor
    · rw [show saveLogs (K + 1) st = saveLogs K (saveLog st) from rfl, hf]
      simp only [saveLog]
      rw [List.range_succ_eq_map]
      have hfun : ((fun j => mkLogName (st.idx + 1 + j)) : Nat → String) =
          fun j => mkLogName (st.idx + (j + 1)) := by
        funext j
        congr 1
        omega
      simp [List.map_map, Function.comp, hfun]
    · rw [show saveLogs (K + 1) st = saveLogs K (saveLog st) from rfl, hi]
      simp [saveLog]
      omega

/-! ## Claim theorem: log numbering -/

/-- C9 (confirmed): `Logger`'s index starts at 0 in a directory without a
`scubywasm-log_(\d+).json` match and otherwise one past the largest
captured integer; each save writes `scubywasm-log_<idx>.json` and
increments the index — so `K` saves into a fresh directory create indices
`0..K-1`, the written names parse back to their indices, and after a
restart the first new index is `max(existing) + 1`. -/
theorem c9_confirmed :
    (∀ (files : List String), (∀ f ∈ files, parseLogName f = none) → initIdx files = 0) ∧
    (∀ (K : Nat), (saveLogs K (loggerStart [])).files = (List.range K).map mkLogName ∧
      (saveLogs K (loggerStart [])).idx = K) ∧
    (∀ (files : List String) (f : String) (w : Nat), f ∈ files →
      parseLogName f = some w → w < initIdx files) ∧
    (∀ (files : List String), files.filterMap parseLogName ≠ [] →
      ∃ f ∈ files, parseLogName f = some (initIdx files - 1)) ∧
    (∀ (i : Nat), parseLogName (mkLogName i) = some i) ∧
    (∀ (files : List String), (saveLog (loggerStart files)).files =
      files ++ [mkLogName (initIdx files)]) := by
  refine ⟨?_, ?_, ?_, ?_, parseLogName_mkLogName, fun _ => rfl⟩
  · intro files h
    have hnil : files.filterMap parseLogName = [] := by
      rw [List.filterMap_eq_nil_iff]
      exact h
    simp [initIdx, hnil]
  · intro K
    obtain ⟨hf, hi⟩ := saveLogs_spec K (loggerStart [])
    have h0 : (loggerStart []).idx = 0 := rfl
    constructor
    · rw [hf, h0]
      simp [loggerStart]
    · rw [hi, h0]
      omega
  · intro files f w hf hp
    have hmem : w ∈ files.filterMap parseLogName := List.mem_filterMap.mpr ⟨f, hf, hp⟩
    cases hm : files.filterMap parseLogName with
    | nil => rw [hm] at hmem; cases hmem
    | cons v vs =>
      rw [hm] at hmem
      have : w ≤ vs.foldl max v := by
        cases List.mem_cons.mp hmem with
        | inl he => exact he ▸ le_foldl_max vs v
        | inr hmm => exact mem_le_foldl_max vs v w hmm
      simp only [initIdx, hm]
      omega
  · intro files hne
    cases hm : files.filterMap parseLogName with
    | nil => exact absurd hm hne
    | cons v vs =>
      have hmem : vs.foldl max v ∈ files.filterMap parseLogName := by
        rw [hm]
        cases foldl_max_mem vs v with
        | inl he => exact by rw [he]; exact List.mem_cons_self v vs
        | inr hmm => exact List.mem_cons_of_mem v hmm
      obtain ⟨f, hf, hp⟩ := List.mem_filterMap.mp hmem
      refine ⟨f, hf, ?_⟩
      rw [hp]
      simp only [initIdx, hm]
      congr 1

/-- C9 witness: the spec's concrete scenarios — a fresh directory starts at
index 0, two saves create `scubywasm-log_0.json` and `scubywasm-log_1.json`,
and a directory holding indices 0 and 7 restarts above 7 and saves
`scubywasm-log_8.json` next. -/
theorem c9_witness :
    initIdx ["readme.txt"] = 0 ∧
    (saveLogs 2 (loggerStart [])).files = (List.range 2).map mkLogName ∧
    (7 : Nat) < initIdx ["scubywasm-log_0.json", "scubywasm-log_7.json"] ∧
    parseLogName (mkLogName 8) = some 8 ∧
    (saveLog (loggerStart ["scubywasm-log_0.json", "scubywasm-log_7.json"])).files =
      ["scubywasm-log_0.json", "scubywasm-log_7.json"] ++ [mkLogName 8] := by
  have h := c9_confirmed
  refine ⟨h.1 _ (by decide), (h.2.1 2).1,
    h.2.2.1 _ "scubywasm-log_7.json" 7 (by decide) (by decide), h.2.2.2.2.1 8, ?_⟩
  have h6 := h.2.2.2.2.2 ["scubywasm-log_0.json", "scubywasm-log_7.json"]
  rw [show initIdx ["scubywasm-log_0.json", "scubywasm-log_7.json"] = 8 from by decide] at h6
  exact h6

/-! ## String order and max-selection facts for `_run_game` -/

theorem lexLt_asymm : ∀ (a b : List Char), lexLt a b = true → lexLt b a = false := by
  intro a
  induction a with
  | nil =>
    intro b h
    cases b with
    | nil => simp [lexLt] at h
    | cons d ds => rfl
  | cons c cs ih =>
    intro b h
    cases b with
    | nil => simp [lexLt] at h
    | cons d ds =>
      simp only [lexLt] at h ⊢
      by_cases h1 : c < d
      · rw [if_neg (lt_asymm h1), if_pos h1]
      · by_cases h2 : d < c
        · rw [if_neg h1, if_pos h2] at h
          cases h
        · rw [if_neg h1, if_neg h2] at h
          rw [if_neg h2, if_neg h1]
          exact ih ds h

theorem strLtB_asymm (a b : String) (h : strLtB a b = true) : strLtB b a = false :=
  lexLt_asymm _ _ h

theorem pairLt_fst_le {a b : Nat × String} (h : pairLt a b = true) : a.1 ≤ b.1 := by
  simp only [pairLt, Bool.or_eq_true, decide_eq_true_eq, Bool.and_eq_true,
    beq_iff_eq] at h
  cases h with
  | inl h => omega
  | inr h => omega

theorem pairLt_fst_ge {a b : Nat × String} (h : pairLt a b = false) : b.1 ≤ a.1 := by
  simp only [pairLt, Bool.or_eq_false_iff, decide_eq_false_iff_not] at h
  omega

theorem pairMax_fst_le_left (a b : Nat × String) : a.1 ≤ (pairMax a b).1 := by
  unfold pairMax
  split
  · next h => exact pairLt_fst_le h
  · exact Nat.le_refl _

theorem pairMax_fst_le_right (a b : Nat × String) : b.1 ≤ (pairMax a b).1 := by
  unfold pairMax
  split
  · exact Nat.le_refl _
  · next h => exact pairLt_fst_ge (Bool.not_eq_true _ ▸ eq_false_of_ne_true h)

theorem pairMax_mem (a b : Nat × String) : pairMax a b = a ∨ pairMax a b = b := by
  unfold pairMax
  split
  · exact Or.inr rfl
  · exact Or.inl rfl

theorem foldl_pairMax_mem : ∀ (rest : List (Nat × String)) (x : Nat × String),
    rest.foldl pairMax x = x ∨ rest.foldl pairMax x ∈ rest := by
  intro rest
  induction rest with
  | nil => intro x; exact Or.inl rfl
  | cons z rest ih =>
    intro x
    rw [List.foldl_cons]
    cases ih (pairMax x z) with
    | inl he =>
      rw [he]
      cases pairMax_mem x z with
      | inl h => exact Or.inl h
      | inr h => exact Or.inr (by rw [h]; exact List.mem_cons_self z rest)
    | inr hm => exact Or.inr (List.mem_cons_of_mem z hm)

theorem foldl_pairMax_fst_ge : ∀ (rest : List (Nat × String)) (x y : Nat × String),
    y ∈ x :: rest → y.1 ≤ (rest.foldl pairMax x).1 := by
  intro rest
  induction rest with
  | nil =>
    intro x y h
    cases List.mem_cons.mp h with
    | inl he => exact he ▸ Nat.le_refl _
    | inr hm => cases hm
  | cons z rest ih =>
    intro x y h
    rw [List.foldl_cons]
    have hmax : (pairMax x z).1 ≤ (rest.foldl pairMax (pairMax x z)).1 :=
      ih (pairMax x z) (pairMax x z) (List.mem_cons_self _ _)
    cases List.mem_cons.mp h with
    | inl he =>
      rw [he]
      exact Nat.le_trans (pairMax_fst_le_left x z) hmax
    | inr hm =>
      cases List.mem_cons.mp hm with
      | inl he =>
        rw [he]
        exact Nat.le_trans (pairMax_fst_le_right x z) hmax
      | inr hmm => exact ih (pairMax x z) y (List.mem_cons_of_mem _ hmm)

theorem insertTeam_sorted (x : String × String) :
    ∀ (l : List (String × String)), teamsSortedB l = true →
      teamsSortedB (insertTeam x l) = true := by
  intro l
  induction l with
  | nil => intro _; rfl
  | cons y ys ih =>
    intro h
    by_cases hyx : strLtB y.1 x.1 = true
    · rw [show insertTeam x (y :: ys) = y :: insertTeam x ys from by
        simp [insertTeam, hyx]]
      cases ys with
      | nil => simp [insertTeam, teamsSortedB, strLtB_asymm _ _ hyx]
      | cons z zs =>
        have hzy : strLtB z.1 y.1 = false := by
          simp only [teamsSortedB, Bool.and_eq_true, Bool.not_eq_true'] at h
          exact h.1
        have htail : teamsSortedB (z :: zs) = true := by
          simp only [teamsSortedB, Bool.and_eq_true] at h
          exact h.2
        have hins := ih htail
        by_cases hzx : strLtB z.1 x.1 = true
        · rw [show insertTeam x (z :: zs) = z :: insertTeam x zs from by
            simp [insertTeam, hzx]] at hins
          rw [show insertTeam x (z :: zs) = z :: insertTeam x zs from by
            simp [insertTeam, hzx]]
          simp only [teamsSortedB, Bool.and_eq_true, Bool.not_eq_true']
          exact ⟨hzy, hins⟩
        · have hzx' : strLtB z.1 x.1 = false := eq_false_of_ne_true hzx
          rw [show insertTeam x (z :: zs) = x :: z :: zs from by
            simp [insertTeam, hzx']]
          simp only [teamsSortedB, Bool.and_eq_true, Bool.not_eq_true']
          exact ⟨strLtB_asymm _ _ hyx, hzx', htail⟩
    · have hyx' : strLtB y.1 x.1 = false := eq_false_of_ne_true hyx
      rw [show insertTeam x (y :: ys) = x :: y :: ys from by simp [insertTeam, hyx']]
      simp only [teamsSortedB, Bool.and_eq_true, Bool.not_eq_true']
      exact ⟨hyx', h⟩

theorem sortTeams_sorted : ∀ (l : List (String × String)),
    teamsSortedB (sortTeams l) = true := by
  intro l
  induction l with
  | nil => rfl
  | cons x xs ih => exact insertTeam_sorted x (sortTeams xs) ih

theorem insertTeam_perm (x : String × String) :
    ∀ (l : List (String × String)), (insertTeam x l).Perm (x :: l) := by
  intro l
  induction l with
  | nil => exact List.Perm.refl _
  | cons y ys ih =>
    by_cases hyx : strLtB y.1 x.1 = true
    · rw [show insertTeam x (y :: ys) = y :: insertTeam x ys from by simp [insertTeam, hyx]]
      exact (ih.cons y).trans (List.Perm.swap x y ys)
    · have hyx' : strLtB y.1 x.1 = false := eq_false_of_ne_true hyx
      rw [show insertTeam x (y :: ys) = x :: y :: ys from by simp [insertTeam, hyx']]

theorem sortTeams_perm : ∀ (l : List (String × String)), (sortTeams l).Perm l := by
  intro l
  induction l with
  | nil => exact List.Perm.refl _
  | cons x xs ih => exact (insertTeam_perm x (sortTeams xs)).trans (ih.cons x)

/-! ## Claim theorem: agent-file selection -/

/-- C10 (confirmed): per team directory, `_run_game` selects the
`agent-v<int>.wasm` file with the largest integer version; files not
matching the pattern are ignored; a directory with no match contributes no
team; and the selected teams are ordered by sorted subdirectory name (the
result is a name-sorted permutation of the per-directory selections). -/
theorem c10_confirmed :
    (∀ (fs : List String), (∀ f ∈ fs, parseAgentFile f = none) →
      selectTeamFile fs = none) ∧
    (∀ (fs : List String) (c : String), selectTeamFile fs = some c →
      ∃ v, (v, c) ∈ fs.filterMap (fun f => (parseAgentFile f).map fun w => (w, f)) ∧
        ∀ w f1, (w, f1) ∈ fs.filterMap (fun f => (parseAgentFile f).map fun w => (w, f)) →
          w ≤ v) ∧
    (∀ (f : String) (fs : List String), parseAgentFile f = none →
      selectTeamFile (f :: fs) = selectTeamFile fs) ∧
    (∀ (entries : List DirEnt), teamsSortedB (runGameSelect entries) = true ∧
      (runGameSelect entries).Perm (collectTeams entries)) := by
  refine ⟨?_, ?_, ?_, ?_⟩
  · intro fs h
    have hnil : fs.filterMap (fun f => (parseAgentFile f).map fun w => (w, f)) = [] := by
      rw [List.filterMap_eq_nil_iff]
      intro f hf
      rw [h f hf]
      rfl
    simp [selectTeamFile, hnil]
  · intro fs c hc
    cases hm : fs.filterMap (fun f => (parseAgentFile f).map fun w => (w, f)) with
    | nil => simp [selectTeamFile, hm] at hc
    | cons x rest =>
      simp only [selectTeamFile, hm, Option.some.injEq] at hc
      refine ⟨(rest.foldl pairMax x).1, ?_, ?_⟩
      · rw [← hc, Prod.mk.eta]
        cases foldl_pairMax_mem rest x with
        | inl he => exact by rw [he]; exact List.mem_cons_self x rest
        | inr hmm => exact List.mem_cons_of_mem x hmm
      · intro w f1 hw
        exact foldl_pairMax_fst_ge rest x (w, f1) hw
  · intro f fs h
    simp [selectTeamFile, List.filterMap_cons, h]
  · intro entries
    exact ⟨sortTeams_sorted _, sortTeams_perm _⟩

/-- C10 witness: the spec's concrete scenario — among `agent-v3.wasm`,
`agent-v12.wasm`, `agent-v9.wasm` (and a non-matching file) the version-12
file is selected, a non-matching file is ignored, and the selected teams
come out sorted by directory name. -/
theorem c10_witness :
    selectTeamFile ["agent-v3.wasm", "agent-v12.wasm", "agent-v9.wasm", "notes.txt"] =
      some "agent-v12.wasm" ∧
    (∃ v, (v, "agent-v12.wasm") ∈
        (["agent-v3.wasm", "agent-v12.wasm", "agent-v9.wasm", "notes.txt"].filterMap
          (fun f => (parseAgentFile f).map fun w => (w, f))) ∧
      ∀ w f1, (w, f1) ∈
          (["agent-v3.wasm", "agent-v12.wasm", "agent-v9.wasm", "notes.txt"].filterMap
            (fun f => (parseAgentFile f).map fun w => (w, f))) → w ≤ v) ∧
    selectTeamFile ["notes.txt", "agent-v3.wasm"] = selectTeamFile ["agent-v3.wasm"] ∧
    teamsSortedB (runGameSelect
      [{ name := "tb", files := some ["agent-v1.wasm"] },
       { name := "ta", files := some ["agent-v3.wasm", "agent-v12.wasm", "agent-v9.wasm"] },
       { name := "f.txt", files := none }]) = true ∧
    runGameSelect
      [{ name := "tb", files := some ["agent-v1.wasm"] },
       { name := "ta", files := some ["agent-v3.wasm", "agent-v12.wasm", "agent-v9.wasm"] },
       { name := "f.txt", files := none }] = [("ta", "agent-v12.wasm"), ("tb", "agent-v1.wasm")] := by
  have h := c10_confirmed
  refine ⟨by decide, h.2.1 _ _ (by decide), h.2.2.1 "notes.txt" _ (by decide),
    (h.2.2.2 _).1, by decide⟩

end Scubywasm
